import Mathlib

/-! # Verification of the pushkinlib search-query compiler and book repository

Shallow embedding of `internal/storage/search_query.go` and the newer
`internal/storage/repository.go` (the variant with the FTS freshness flag,
per-call name caches and unique-constraint fallback) of the pushkinlib
e-book library server, together with proofs of the frozen claims about it.

Strings are modelled as `List Char` (`Str`); Go's per-rune iteration over a
string corresponds to list traversal.  The Go `unicode` package predicates
are modelled for the Latin and Cyrillic ranges, the alphabets this
repository works with; both sides of every theorem go through the same
model, so the statements do not depend on the exotic remainder of the
Unicode tables.
-/

namespace Pushkinlib

abbrev Str := List Char

/-- Model of Go `unicode.IsSpace` (ASCII whitespace plus NEL and NBSP,
the Latin-1 part of the table). -/
def goIsSpace (c : Char) : Bool :=
  c = ' ' || c = '\t' || c = '\n' || c = Char.ofNat 0x0B || c = Char.ofNat 0x0C ||
  c = '\r' || c = Char.ofNat 0x85 || c = Char.ofNat 0xA0

/-- Model of Go `unicode.IsLetter` on the Latin and Cyrillic ranges. -/
def goIsLetter (c : Char) : Bool :=
  ('A' ≤ c && c ≤ 'Z') || ('a' ≤ c && c ≤ 'z') ||
  (0x400 ≤ c.toNat && c.toNat ≤ 0x4FF)

/-- Model of Go `unicode.IsDigit` on the ASCII range. -/
def goIsDigit (c : Char) : Bool :=
  '0' ≤ c && c ≤ '9'

/-- Model of Go `unicode.ToLower` on the Latin and Cyrillic ranges:
A–Z and А–Я map down by 0x20, Ѐ–Џ (includes Ё) map down by 0x50. -/
def goToLower (c : Char) : Char :=
  if 'A' ≤ c && c ≤ 'Z' then Char.ofNat (c.toNat + 0x20)
  else if 0x410 ≤ c.toNat && c.toNat ≤ 0x42F then Char.ofNat (c.toNat + 0x20)
  else if 0x400 ≤ c.toNat && c.toNat ≤ 0x40F then Char.ofNat (c.toNat + 0x50)
  else c

/-- Go `strings.ToLower`, per character. -/
def strToLower (s : Str) : Str := s.map goToLower

/-- Go `strings.TrimSpace`: drop leading and trailing whitespace. -/
def trimSpace (s : Str) : Str :=
  ((s.dropWhile goIsSpace).reverse.dropWhile goIsSpace).reverse

/-- Go `strings.Join(xs, sep)`. -/
def joinSep (sep : Str) : List Str → Str
  | [] => []
  | [x] => x
  | x :: xs => x ++ sep ++ joinSep sep xs

/-- `tokenizeText` from search_query.go: split into maximal runs of
letters/digits, lowercased; all other characters are separators. -/
def tokenizeCore (cur : Str) : Str → List Str
  | [] => if cur = [] then [] else [cur]
  | c :: rest =>
    if goIsLetter c || goIsDigit c then
      tokenizeCore (cur ++ [goToLower c]) rest
    else if cur = [] then tokenizeCore [] rest
    else cur :: tokenizeCore [] rest

def tokenizeText (s : Str) : List Str := tokenizeCore [] s

/-- `uniqueTokens` from search_query.go: drop empty tokens and keep the
first occurrence of each token (Go tracks `seen` in a map). -/
def uniqueCore (seen : List Str) : List Str → List Str
  | [] => []
  | t :: ts =>
    if t = [] then uniqueCore seen ts
    else if t ∈ seen then uniqueCore seen ts
    else t :: uniqueCore (t :: seen) ts

def uniqueTokens (tokens : List Str) : List Str := uniqueCore [] tokens

/-- `formatFTSToken` from search_query.go: append a trailing `*` unless the
token is empty or already ends in `*`. -/
def formatFTSToken (token : Str) : Str :=
  if token = [] then []
  else if token.getLast? = some '*' then token
  else token ++ ['*']

/-- `ftsSearchableColumns` from search_query.go. -/
def ftsSearchableColumns : List Str :=
  ["title".data, "annotation".data, "authors".data, "series".data]

/-- `buildGeneralFTSClause` from search_query.go. -/
def buildGeneralFTSClause (tokens : List Str) : Str :=
  let unique := uniqueTokens tokens
  if unique = [] then []
  else
    let perToken := unique.map (fun token =>
      let formatted := formatFTSToken token
      let columnClauses := ftsSearchableColumns.map (fun column =>
        column ++ [':'] ++ formatted)
      ['('] ++ joinSep " OR ".data columnClauses ++ [')'])
    match perToken with
    | [p] => p
    | _ => joinSep " AND ".data perToken

/-- `buildFieldFTSClause` from search_query.go. -/
def buildFieldFTSClause (field : Str) (tokens : List Str) : Str :=
  let unique := uniqueTokens tokens
  if unique = [] then []
  else
    let parts := unique.map (fun token => field ++ [':'] ++ formatFTSToken token)
    match parts with
    | [p] => p
    | _ => joinSep " AND ".data parts

/-- `structuredQuery` from search_query.go.  The Go field `AnnotationTerms`
is rendered `AnnotTerms` (a naming restriction of this development). -/
structure StructuredQuery where
  Remainder : Str
  GeneralTerms : List Str
  TitleTerms : List Str
  AuthorTerms : List Str
  SeriesTerms : List Str
  AnnotTerms : List Str
deriving DecidableEq, Repr

/-- `buildFTSExpression` from search_query.go. -/
def buildFTSExpression (q : StructuredQuery) : Str :=
  let clauses := ([] : List Str)
  let clauses := match buildGeneralFTSClause q.GeneralTerms with
    | [] => clauses | c => clauses ++ [c]
  let clauses := match buildFieldFTSClause "title".data q.TitleTerms with
    | [] => clauses | c => clauses ++ [c]
  let clauses := match buildFieldFTSClause "authors".data q.AuthorTerms with
    | [] => clauses | c => clauses ++ [c]
  let clauses := match buildFieldFTSClause "series".data q.SeriesTerms with
    | [] => clauses | c => clauses ++ [c]
  let clauses := match buildFieldFTSClause "annotation".data q.AnnotTerms with
    | [] => clauses | c => clauses ++ [c]
  match clauses with
  | [] => []
  | [c] => c
  | cs => joinSep " AND ".data cs

/-- ASCII word character, as used by the RE2 `\b` assertion. -/
def isWordChar (c : Char) : Bool :=
  ('0' ≤ c && c ≤ '9') || ('A' ≤ c && c ≤ 'Z') || ('a' ≤ c && c ≤ 'z') || c = '_'

/-- RE2 `\s` (the Perl class): `[\t\n\f\r ]`. -/
def regexIsSpace (c : Char) : Bool :=
  c = '\t' || c = '\n' || c = Char.ofNat 0x0C || c = '\r' || c = ' '

/-- Case-insensitive literal match: consume `pat` (given lowercase) from the
front of `s`, folding `s` with `goToLower`; return the rest. -/
def matchCI : Str → Str → Option Str
  | [], s => some s
  | _ :: _, [] => none
  | p :: ps, c :: cs => if goToLower c = p then matchCI ps cs else none

/-- The field alternatives of `searchFieldRegex`, in source order. -/
def fieldAlternatives : List Str :=
  ["author".data, "authors".data, "автор".data, "авторы".data,
   "series".data, "серия".data, "серии".data,
   "title".data, "название".data,
   "annotation".data, "описание".data, "description".data]

/-- The quoted-value tail `([^"\\]|\\.)*"`: number of characters consumed up
to and including the closing quote.  Each step is forced (the negated class
refuses `"` and `\`, the escape refuses a bare trailing `\` and `\<newline>`),
so the greedy star is deterministic; `none` means the quoted alternative of
the value group fails. -/
def quotedRest : Str → Option Nat
  | [] => none
  | '"' :: _ => some 1
  | '\\' :: rest =>
    match rest with
    | [] => none
    | d :: rest2 => if d = '\n' then none else (quotedRest rest2).map (· + 2)
  | _ :: rest => (quotedRest rest).map (· + 1)

/-- The value group `("([^"\\]|\\.)*"|\S+)` of `searchFieldRegex`: number of
characters it consumes, `none` if it cannot match.  The quoted alternative
is tried first; on failure the leftmost-first semantics falls back to the
maximal non-empty `\S+` run. -/
def matchValue (s : Str) : Option Nat :=
  let run := s.takeWhile (fun c => !regexIsSpace c)
  match s with
  | '"' :: rest =>
    match quotedRest rest with
    | some n => some (n + 1)
    | none => if run = [] then none else some run.length
  | _ => if run = [] then none else some run.length

/-- Try the field alternatives in source order at the head of `s`; each must
be followed by `:` and a value.  Returns `(field length, value length)`. -/
def tryFieldAlts : List Str → Str → Option (Nat × Nat)
  | [], _ => none
  | pat :: pats, s =>
    match matchCI pat s with
    | some (':' :: r2) =>
      match matchValue r2 with
      | some vl => some (pat.length, vl)
      | none => tryFieldAlts pats s
    | _ => tryFieldAlts pats s

/-- A match of `searchFieldRegex` anchored at the head of `s`, with `prev`
the character just before `s` (`none` at the start of the text): the `\b`
assertion requires an ASCII word boundary there. -/
def matchFieldAt (prev : Option Char) (s : Str) : Option (Nat × Nat) :=
  let prevWord := match prev with | none => false | some p => isWordChar p
  let curWord := match s with | [] => false | c :: _ => isWordChar c
  if prevWord != curWord then tryFieldAlts fieldAlternatives s else none

/-- `searchFieldRegex.FindAllStringSubmatchIndex`: scan left to right,
non-overlapping, resuming after each match.  Each entry is
`(start, field length, value length)`; the matched span is
`[start, start + fieldLen + 1 + valueLen)` and the value span starts at
`start + fieldLen + 1`. -/
def findMatchesAux (fuel : Nat) (prev : Option Char) (s : Str) (pos : Nat) :
    List (Nat × Nat × Nat) :=
  match fuel with
  | 0 => []
  | fuel + 1 =>
    match s with
    | [] => []
    | c :: rest =>
      match matchFieldAt prev (c :: rest) with
      | some (fl, vl) =>
        let len := fl + 1 + vl
        (pos, fl, vl) ::
          findMatchesAux fuel ((c :: rest).get? (len - 1))
            (List.drop len (c :: rest)) (pos + len)
      | none => findMatchesAux fuel (some c) rest (pos + 1)

def findFieldMatches (s : Str) : List (Nat × Nat × Nat) :=
  findMatchesAux s.length none s 0

/-- `normalizeSearchField` from search_query.go. -/
def normalizeSearchField (field : Str) : Str :=
  let f := strToLower field
  if f = "author".data || f = "authors".data || f = "автор".data || f = "авторы".data then
    "authors".data
  else if f = "series".data || f = "серия".data || f = "серии".data then
    "series".data
  else if f = "title".data || f = "название".data then
    "title".data
  else if f = "annotation".data || f = "описание".data || f = "description".data then
    "annotation".data
  else []

/-- The escape-processing loop of `unquoteSearchValue`. -/
def unescapeCore (escaped : Bool) : Str → Str
  | [] => if escaped then ['\\'] else []
  | r :: rest =>
    if escaped then r :: unescapeCore false rest
    else if r = '\\' then unescapeCore true rest
    else r :: unescapeCore false rest

/-- `unquoteSearchValue` from search_query.go. -/
def unquoteSearchValue (raw : Str) : Str :=
  let trimmed := trimSpace raw
  if 2 ≤ trimmed.length ∧ trimmed.head? = some '"' ∧ trimmed.getLast? = some '"' then
    unescapeCore false (trimmed.drop 1 |>.dropLast)
  else trimmed

/-- Go slice `s[a:b]` (byte indices in Go fall on rune boundaries at and
between regex matches, so character indices are equivalent). -/
def sliceStr (s : Str) (a b : Nat) : Str := (s.drop a).take (b - a)

/-- The match loop of `parseSearchQuery`: walk the regex matches, copying the
gaps into the remainder and accumulating per-field tokens. -/
def parseLoop (input : Str) :
    List (Nat × Nat × Nat) → Nat → Str → StructuredQuery → Str × StructuredQuery
  | [], last, rem, q => (rem ++ input.drop last, q)
  | (start, fl, vl) :: ms, last, rem, q =>
    let e := start + fl + 1 + vl
    let rem := rem ++ sliceStr input last start
    let rawField := sliceStr input start (start + fl)
    let normalized := normalizeSearchField rawField
    let rawValue := sliceStr input (start + fl + 1) e
    if normalized = [] then
      parseLoop input ms e (rem ++ sliceStr input start e) q
    else
      let value := unquoteSearchValue rawValue
      let tokens := tokenizeText value
      let q :=
        if normalized = "title".data then
          { q with TitleTerms := q.TitleTerms ++ tokens }
        else if normalized = "authors".data then
          { q with AuthorTerms := q.AuthorTerms ++ tokens }
        else if normalized = "series".data then
          { q with SeriesTerms := q.SeriesTerms ++ tokens }
        else if normalized = "annotation".data then
          { q with AnnotTerms := q.AnnotTerms ++ tokens }
        else q
      parseLoop input ms e rem q

/-- `parseSearchQuery` from search_query.go. -/
def parseSearchQuery (input : Str) : StructuredQuery :=
  let result : StructuredQuery := ⟨[], [], [], [], [], []⟩
  if trimSpace input = [] then result
  else
    match findFieldMatches input with
    | [] => { result with Remainder := input, GeneralTerms := tokenizeText input }
    | m :: ms =>
      let (rem, q) := parseLoop input (m :: ms) 0 [] result
      { q with Remainder := rem, GeneralTerms := tokenizeText rem }

/-- The fold of `normalizeWhitespace` over the trimmed text. -/
def nwCore (prevSpace : Bool) : Str → Str
  | [] => []
  | r :: rest =>
    if goIsSpace r then
      if prevSpace then nwCore true rest
      else ' ' :: nwCore true rest
    else r :: nwCore false rest

/-- `normalizeWhitespace` from search_query.go. -/
def normalizeWhitespace (input : Str) : Str :=
  let trimmed := trimSpace input
  if trimmed = [] then [] else nwCore false trimmed

/-- `prepareFTSSearch` from search_query.go. -/
def prepareFTSSearch (input : Str) : Str × Str :=
  let parsed := parseSearchQuery input
  let ftsExpr := buildFTSExpression parsed
  let fallback := normalizeWhitespace parsed.Remainder
  let fallback :=
    if fallback = [] ∧ parsed.GeneralTerms ≠ [] then
      joinSep [' '] (uniqueTokens parsed.GeneralTerms)
    else fallback
  (ftsExpr, fallback)

/-! ## The search SQL builder (repository.go) -/

/-- `BookFilter` from the storage models (the fields the SQL builder reads). -/
structure BookFilter where
  Query : Str := []
  Authors : List Str := []
  Series : List Str := []
  Genres : List Str := []
  Languages : List Str := []
  Formats : List Str := []
  YearFrom : Int := 0
  YearTo : Int := 0
  Limit : Int := 0
  Offset : Int := 0
  SortBy : Str := []
  SortOrder : Str := []
deriving Repr

/-- A positional SQL argument (Go passes `interface{}` values). -/
inductive SQLArg where
  | s (v : Str)
  | i (v : Int)
deriving DecidableEq, Repr

/-- The local state `buildSearchSQL` accumulates before rendering. -/
structure SearchPlan where
  joins : List Str
  conds : List Str
  baseArgs : List SQLArg
  joinedAuthors : Bool
  hasFTS : Bool
deriving Repr

def seriesJoin : Str := "LEFT JOIN series s ON b.series_id = s.id".data
def genresJoin : Str := "LEFT JOIN genres g ON b.genre_id = g.id".data
def baJoin : Str := "LEFT JOIN book_authors ba ON b.id = ba.book_id".data
def authorsJoin : Str := "LEFT JOIN authors a ON ba.author_id = a.id".data
def ftsJoin : Str := "JOIN books_fts ON books_fts.book_id = b.id".data

/-- The `addAuthorJoin` closure of `buildSearchSQL`. -/
def addAuthorJoin (p : SearchPlan) : SearchPlan :=
  if p.joinedAuthors then p
  else { p with joins := p.joins ++ [baJoin, authorsJoin], joinedAuthors := true }

/-- `createPlaceholders` from repository.go: `Repeat("?,", n)` with trailing
commas trimmed. -/
def createPlaceholders (count : Nat) : Str :=
  if count = 0 then []
  else ((List.replicate count "?,".data).flatten.reverse.dropWhile (· = ',')).reverse

def likeCond : Str :=
  "(LOWER(b.title) LIKE ? OR LOWER(b.annotation) LIKE ? OR LOWER(a.name) LIKE ? OR LOWER(s.name) LIKE ?)".data

/-- The free-text block of `buildSearchSQL`. -/
def queryStep (f : BookFilter) (p : SearchPlan) : SearchPlan :=
  if trimSpace f.Query ≠ [] then
    let (ftsQuery, fallback) := prepareFTSSearch f.Query
    if ftsQuery ≠ [] then
      { p with hasFTS := true, joins := p.joins ++ [ftsJoin],
               conds := p.conds ++ ["books_fts MATCH ?".data],
               baseArgs := p.baseArgs ++ [SQLArg.s ftsQuery] }
    else if fallback ≠ [] then
      let p := addAuthorJoin p
      let like := ['%'] ++ strToLower fallback ++ ['%']
      { p with conds := p.conds ++ [likeCond],
               baseArgs := p.baseArgs ++ [SQLArg.s like, SQLArg.s like, SQLArg.s like, SQLArg.s like] }
    else p
  else p

/-- One `column IN (...)` filter block of `buildSearchSQL`. -/
def inStep (column : Str) (values : List Str) (p : SearchPlan) : SearchPlan :=
  if values ≠ [] then
    let cond := column ++ " IN (".data ++ createPlaceholders values.length ++ [')']
    { p with conds := p.conds ++ [cond],
             baseArgs := p.baseArgs ++ values.map SQLArg.s }
  else p

def authorsStep (f : BookFilter) (p : SearchPlan) : SearchPlan :=
  if f.Authors ≠ [] then inStep "a.name".data f.Authors (addAuthorJoin p) else p

def yearFromStep (f : BookFilter) (p : SearchPlan) : SearchPlan :=
  if 0 < f.YearFrom then
    { p with conds := p.conds ++ ["b.year >= ?".data],
             baseArgs := p.baseArgs ++ [SQLArg.i f.YearFrom] }
  else p

def yearToStep (f : BookFilter) (p : SearchPlan) : SearchPlan :=
  if 0 < f.YearTo then
    { p with conds := p.conds ++ ["b.year <= ?".data],
             baseArgs := p.baseArgs ++ [SQLArg.i f.YearTo] }
  else p

/-- The initial local state of `buildSearchSQL`: base joins, no conditions,
no arguments. -/
def initialPlan : SearchPlan := ⟨[seriesJoin, genresJoin], [], [], false, false⟩

/-- The condition-building prefix of `buildSearchSQL`, block by block in
source order. -/
def searchPlan (f : BookFilter) : SearchPlan :=
  let p := initialPlan
  let p := queryStep f p
  let p := authorsStep f p
  let p := inStep "s.name".data f.Series p
  let p := inStep "g.name".data f.Genres p
  let p := inStep "b.language".data f.Languages p
  let p := inStep "b.format".data f.Formats p
  let p := yearFromStep f p
  yearToStep f p

/-- `buildOrderClause` from repository.go.  The Go `switch` is a sequence of
equality tests in source order. -/
def buildOrderClause (sortBy sortOrder : Str) (hasFTS : Bool) : Str :=
  let sortBy := if sortBy = [] ∧ hasFTS then "relevance".data else sortBy
  let column :=
    if sortBy = "year".data then "b.year".data
    else if sortBy = "date_added".data then "b.date_added".data
    else if sortBy = "relevance".data then
      if hasFTS then "bm25(books_fts)".data else "b.title".data
    else "b.title".data
  let direction := if strToLower sortOrder = "desc".data then "DESC".data else "ASC".data
  " ORDER BY ".data ++ column ++ [' '] ++ direction

/-- `bookSelectColumns` from repository.go. -/
def bookSelectColumns : Str :=
  ("\n\tb.id, b.title, b.series_id, b.series_num, b.genre_id, b.year,\n\t" ++
   "b.language, b.file_size, b.archive_path, b.file_num, b.format,\n\t" ++
   "b.date_added, b.rating, b.annotation, b.created_at, b.updated_at,\n\t" ++
   "s.name as series_name, g.name as genre_name").data

/-- The join rendering loop: each join preceded by a single space. -/
def renderJoins (joins : List Str) : Str :=
  (joins.map (fun j => [' '] ++ j)).flatten

/-- The `WHERE` rendering of `buildSearchSQL`. -/
def renderWhere (conds : List Str) : Str :=
  if conds = [] then [] else " WHERE ".data ++ joinSep " AND ".data conds

/-- `buildSearchSQL` from repository.go: returns
`(query, queryArgs, countQuery, countArgs)`. -/
def buildSearchSQL (f : BookFilter) : Str × List SQLArg × Str × List SQLArg :=
  let limit := if f.Limit ≤ 0 then 30 else f.Limit
  let offset := if f.Offset < 0 then 0 else f.Offset
  let p := searchPlan f
  let orderClause := buildOrderClause f.SortBy f.SortOrder p.hasFTS
  let query :=
    "SELECT ".data ++ bookSelectColumns ++ " FROM books b".data ++
    renderJoins p.joins ++ renderWhere p.conds ++
    (if p.joinedAuthors then " GROUP BY b.id".data else []) ++
    orderClause ++ " LIMIT ? OFFSET ?".data
  let queryArgs := p.baseArgs ++ [SQLArg.i limit, SQLArg.i offset]
  let countQuery :=
    "SELECT COUNT(DISTINCT b.id) FROM books b".data ++
    renderJoins p.joins ++ renderWhere p.conds
  (query, queryArgs, countQuery, p.baseArgs)

/-! ## The repository state machine (repository.go, newer variant)

The SQLite engine is abstracted to list-backed tables with the constraints
the schema declares: `authors`/`series`/`genres` have an AUTOINCREMENT id
and a UNIQUE name (an insert of a present name fails with a
uniqueness-constraint error; `DELETE` does not reset the AUTOINCREMENT
counter), `books` is keyed by id (`INSERT OR REPLACE`), `book_authors` has
a primary key on the pair (`INSERT OR IGNORE`), and `books_fts` is an FTS5
table with no constraint at all.  Operations are modelled at the
granularity of one repository call: a failed call rolls its transaction
back (but the process-wide `ftsFresh` flag, already swapped, stays
consumed), and the bulk-import PRAGMA tuning is set and restored inside
the call, so the state records the steady-state PRAGMA values. -/

/-- `inpx.Book`, the record shape `InsertBooks` consumes (timestamps are
environment inputs and are not modelled).  `Annotation` is rendered
`annot` (naming restriction). -/
structure InpxBook where
  ID : Str := []
  Title : Str := []
  Authors : List Str := []
  Series : Str := []
  SeriesNum : Int := 0
  Genre : Str := []
  Year : Int := 0
  Language : Str := []
  FileSize : Int := 0
  ArchivePath : Str := []
  FileNum : Str := []
  Format : Str := []
  Rating : Int := 0
  annot : Str := []
deriving DecidableEq, Repr

/-- A dimension table (`authors`, `series` or `genres`). -/
structure NameTable where
  rows : List (Nat × Str) := []
  nextId : Nat := 1
deriving DecidableEq, Repr

/-- The SQL error taxonomy the import path distinguishes. -/
inductive SqlErr where
  | uniqueConstraint
  | noRows
deriving DecidableEq, Repr

/-- `isUniqueConstraintError` from repository.go. -/
def isUniqueConstraintError : SqlErr → Bool
  | .uniqueConstraint => true
  | .noRows => false

/-- `INSERT INTO <table> (name) VALUES (?)` under the UNIQUE(name)
constraint, returning the last-insert id. -/
def sqlInsertName (t : NameTable) (name : Str) : Except SqlErr (Nat × NameTable) :=
  if t.rows.any (fun r => r.2 = name) then .error .uniqueConstraint
  else .ok (t.nextId, ⟨t.rows ++ [(t.nextId, name)], t.nextId + 1⟩)

/-- `SELECT id FROM <table> WHERE name = ?`. -/
def sqlSelectIdByName (t : NameTable) (name : Str) : Option Nat :=
  (t.rows.find? (fun r => r.2 = name)).map (·.1)

/-- `getOrCreateAuthorTx` from the newer repository.go (identical to
`getOrCreateSeriesTx` / `getOrCreateGenreTx` up to the table): per-call
cache lookup, then insert-first, falling back on a uniqueness-constraint
violation to a lookup by name. -/
def getOrCreateNameTx (t : NameTable) (cache : List (Str × Nat)) (name : Str) :
    Except SqlErr (Nat × NameTable × List (Str × Nat)) :=
  match cache.find? (fun e => e.1 = name) with
  | some e => .ok (e.2, t, cache)
  | none =>
    match sqlInsertName t name with
    | .ok (id, t') => .ok (id, t', (name, id) :: cache)
    | .error e =>
      if !isUniqueConstraintError e then .error e
      else
        match sqlSelectIdByName t name with
        | some id => .ok (id, t, (name, id) :: cache)
        | none => .error .noRows

/-- A `books` row as written by the book insert statement. -/
structure BookRow where
  id : Str
  title : Str
  seriesId : Option Nat
  seriesNum : Int
  genreId : Option Nat
  year : Int
  language : Str
  fileSize : Int
  archivePath : Str
  fileNum : Str
  format : Str
  rating : Int
  annot : Str
deriving DecidableEq, Repr

/-- A `books_fts` row as written by the FTS insert statement. -/
structure FTSRow where
  book_id : Str
  title : Str
  annot : Str
  authorsText : Str
  series : Str
deriving DecidableEq, Repr

/-- The PRAGMA settings the bulk import touches. -/
structure PragmaState where
  synchronous : Int := 2
  tempStore : Int := 0
  cacheSize : Int := -2000
  journalMode : Str := "wal".data
deriving DecidableEq, Repr

/-- The database and repository state. -/
structure DBState where
  authors : NameTable := {}
  series : NameTable := {}
  genres : NameTable := {}
  books : List BookRow := []
  bookAuthors : List (Str × Nat) := []
  booksFts : List FTSRow := []
  ftsFresh : Bool := false
  pragmas : PragmaState := {}
deriving DecidableEq, Repr

/-- `INSERT OR REPLACE INTO books`: the conflicting row (same id) is
removed and the new row inserted. -/
def upsertBook (rows : List BookRow) (row : BookRow) : List BookRow :=
  rows.filter (fun r => r.id ≠ row.id) ++ [row]

/-- `INSERT OR IGNORE INTO book_authors`. -/
def linkBookAuthor (links : List (Str × Nat)) (bookId : Str) (authorId : Nat) :
    List (Str × Nat) :=
  if (bookId, authorId) ∈ links then links else links ++ [(bookId, authorId)]

/-- The per-call name→id caches of `InsertBooks`. -/
structure Caches where
  authorCache : List (Str × Nat) := []
  seriesCache : List (Str × Nat) := []
  genreCache : List (Str × Nat) := []
deriving Repr

/-- The author loop of `insertBookTx`: skip empty names, get-or-create,
link. -/
def insertAuthorsLoop (bookId : Str) :
    List Str → DBState → Caches → Except SqlErr (DBState × Caches)
  | [], s, caches => .ok (s, caches)
  | name :: names, s, caches =>
    if name = [] then insertAuthorsLoop bookId names s caches
    else
      match getOrCreateNameTx s.authors caches.authorCache name with
      | .error e => .error e
      | .ok (authorId, authors', cache') =>
        let s := { s with authors := authors',
                          bookAuthors := linkBookAuthor s.bookAuthors bookId authorId }
        insertAuthorsLoop bookId names s { caches with authorCache := cache' }

/-- `insertBookTx` from the newer repository.go (within the bulk-import
transaction; `skipFTSDelete` suppresses the per-book FTS delete). -/
def insertBookTx (s : DBState) (caches : Caches) (skipFTSDelete : Bool)
    (book : InpxBook) : Except SqlErr (DBState × Caches) :=
  let resolveSeries : Except SqlErr (Option Nat × DBState × Caches) :=
    if book.Series = [] then .ok (none, s, caches)
    else
      match getOrCreateNameTx s.series caches.seriesCache book.Series with
      | .error e => .error e
      | .ok (id, t', cache') =>
        .ok (some id, { s with series := t' }, { caches with seriesCache := cache' })
  match resolveSeries with
  | .error e => .error e
  | .ok (seriesId, s, caches) =>
    let resolveGenre : Except SqlErr (Option Nat × DBState × Caches) :=
      if book.Genre = [] then .ok (none, s, caches)
      else
        match getOrCreateNameTx s.genres caches.genreCache book.Genre with
        | .error e => .error e
        | .ok (id, t', cache') =>
          .ok (some id, { s with genres := t' }, { caches with genreCache := cache' })
    match resolveGenre with
    | .error e => .error e
    | .ok (genreId, s, caches) =>
      let row : BookRow :=
        ⟨book.ID, book.Title, seriesId, book.SeriesNum, genreId, book.Year,
         book.Language, book.FileSize, book.ArchivePath, book.FileNum,
         book.Format, book.Rating, book.annot⟩
      let s := { s with books := upsertBook s.books row }
      match insertAuthorsLoop book.ID book.Authors s caches with
      | .error e => .error e
      | .ok (s, caches) =>
        let s :=
          if !skipFTSDelete then
            { s with booksFts := s.booksFts.filter (fun r => r.book_id ≠ book.ID) }
          else s
        let ftsRow : FTSRow :=
          ⟨book.ID, book.Title, book.annot, joinSep [' '] book.Authors, book.Series⟩
        .ok ({ s with booksFts := s.booksFts ++ [ftsRow] }, caches)

/-- The book loop of `InsertBooks`. -/
def insertBooksLoop (skipFTSDelete : Bool) :
    List InpxBook → DBState → Caches → Except SqlErr DBState
  | [], s, _ => .ok s
  | book :: books, s, caches =>
    match insertBookTx s caches skipFTSDelete book with
    | .error e => .error e
    | .ok (s, caches) => insertBooksLoop skipFTSDelete books s caches

/-- `InsertBooks` from the newer repository.go: early return on an empty
batch; otherwise consume the freshness flag, run the loop in one
transaction and commit.  On an error the transaction rolls back — but the
already-swapped process-wide flag stays consumed. -/
def insertBooksOp (s : DBState) (books : List InpxBook) :
    Except SqlErr Unit × DBState :=
  if books = [] then (.ok (), s)
  else
    let skipFTSDelete := s.ftsFresh
    match insertBooksLoop skipFTSDelete books { s with ftsFresh := false } {} with
    | .ok s' => (.ok (), s')
    | .error e => (.error e, { s with ftsFresh := false })

/-- `ClearAllBooks` from the newer repository.go: delete everything in
dependency order, commit, then set the freshness flag.  (`DELETE` keeps
the AUTOINCREMENT counters.) -/
def clearAllBooksOp (s : DBState) : DBState :=
  { s with authors := { s.authors with rows := [] },
           series := { s.series with rows := [] },
           genres := { s.genres with rows := [] },
           books := [], bookAuthors := [], booksFts := [],
           ftsFresh := true }

/-- The repository operations reachability quantifies over. -/
inductive RepoOp where
  | clearAll
  | insertBooks (books : List InpxBook)

/-- Successful execution of one repository call. -/
def repoStep (s : DBState) : RepoOp → DBState
  | .clearAll => clearAllBooksOp s
  | .insertBooks books => (insertBooksOp s books).2

def repoRun (s : DBState) (ops : List RepoOp) : DBState :=
  ops.foldl repoStep s

/-! ## `SearchBooks` result assembly (repository.go) -/

/-- A Go slice: `nil` (the zero value) is distinct from an allocated empty
slice. -/
inductive GoSlice (α : Type) where
  | nil
  | mk (l : List α)
deriving DecidableEq, Repr

/-- Go `append` on a slice (always yields a non-nil slice). -/
def goAppend {α : Type} : GoSlice α → α → GoSlice α
  | .nil, x => .mk [x]
  | .mk l, x => .mk (l ++ [x])

def goLen {α : Type} : GoSlice α → Nat
  | .nil => 0
  | .mk l => l.length

/-- `BookList` from the storage models; the element type is abstract (one
element per row the page query returned). -/
structure BookListOf (α : Type) where
  Books : GoSlice α
  Total : Int
  Limit : Int
  Offset : Int
  HasMore : Bool
deriving Repr

/-- `SearchBooks` from repository.go, given the rows the page query
returned and the total the count query returned: sanitize the paging, fold
the rows into `books` (a slice that starts as Go `nil` and is only touched
by `append`), and assemble the result. -/
def searchBooksModel {α : Type} (filter : BookFilter) (rows : List α)
    (total : Int) : BookListOf α :=
  let limit := if filter.Limit ≤ 0 then 30 else filter.Limit
  let offset := if filter.Offset < 0 then 0 else filter.Offset
  { Books := rows.foldl goAppend GoSlice.nil
    Total := total
    Limit := limit
    Offset := offset
    HasMore := offset + limit < total }

/-! ## Specification-side definitions

These follow the words of the spec/claims (not the code) and are compared
with the embedded source functions in the refinement theorems. -/

/-- Spec: deduplication preserving first-occurrence order. -/
def dedupFirstCore (seen : List Str) : List Str → List Str
  | [] => []
  | t :: ts =>
    if t ∈ seen then dedupFirstCore seen ts
    else t :: dedupFirstCore (t :: seen) ts

def dedupFirst (tokens : List Str) : List Str := dedupFirstCore [] tokens

/-- Spec: `t` with a trailing `*` appended unless `t` already ends in `*`. -/
def starred (t : Str) : Str :=
  if t.getLast? = some '*' then t else t ++ ['*']

/-- Spec (C1): the general clause
`(title:T OR annotation:T OR authors:T OR series:T)` for one token. -/
def specGeneralClause (t : Str) : Str :=
  "(title:".data ++ starred t ++ " OR annotation:".data ++ starred t ++
  " OR authors:".data ++ starred t ++ " OR series:".data ++ starred t ++ [')']

/-- Spec (C1): per-token general clauses joined with AND, over the
deduplicated tokens. -/
def specGeneralGroup (tokens : List Str) : Str :=
  joinSep " AND ".data ((dedupFirst tokens).map specGeneralClause)

/-- Spec (C1): `field:T` clauses joined with AND, over the deduplicated
tokens. -/
def specFieldGroup (field : Str) (tokens : List Str) : Str :=
  joinSep " AND ".data
    ((dedupFirst tokens).map (fun t => field ++ [':'] ++ starred t))

/-- Spec (C1): the five clause groups, in order. -/
def specGroups (q : StructuredQuery) : List Str :=
  [specGeneralGroup q.GeneralTerms,
   specFieldGroup "title".data q.TitleTerms,
   specFieldGroup "authors".data q.AuthorTerms,
   specFieldGroup "series".data q.SeriesTerms,
   specFieldGroup "annotation".data q.AnnotTerms]

/-- Spec (C1): the non-empty clause groups joined with AND. -/
def specFTSExpression (q : StructuredQuery) : Str :=
  joinSep " AND ".data ((specGroups q).filter (· ≠ []))

/-- Spec (C4): the fallback string — the whitespace-normalized parser
remainder, or, when that is empty and general tokens exist, the
deduplicated general tokens joined by single spaces. -/
def specFallback (input : Str) : Str :=
  let q := parseSearchQuery input
  let n := normalizeWhitespace q.Remainder
  if n ≠ [] then n
  else if q.GeneralTerms ≠ [] then joinSep [' '] (dedupFirst q.GeneralTerms)
  else []

/-- Spec (C5): the sort column — `year`/`date_added` to their columns,
`relevance` (explicit, or implied by an absent sort key when a full-text
clause is active) to the rank function when full-text is active and to the
title column otherwise, anything else to the title column. -/
def orderColumnSpec (sortBy : Str) (hasFTS : Bool) : Str :=
  if sortBy = "year".data then "b.year".data
  else if sortBy = "date_added".data then "b.date_added".data
  else if sortBy = "relevance".data ∨ (sortBy = [] ∧ hasFTS) then
    if hasFTS then "bm25(books_fts)".data else "b.title".data
  else "b.title".data

/-- Well-formed match spans: each `(start, fieldLen, valueLen)` begins at or
after the cursor and ends within the text, and the spans are ordered and
non-overlapping (so the Go submatch-index slicing cannot go out of
bounds). -/
def spansWF (lo len : Nat) : List (Nat × Nat × Nat) → Prop
  | [] => True
  | (st, fl, vl) :: ms =>
    lo ≤ st ∧ st + (fl + 1 + vl) ≤ len ∧ spansWF (st + (fl + 1 + vl)) len ms

/-- The shapes of the conditions added after the free-text block: the five
`IN` filters and the two year bounds. -/
def structuredCond (c : Str) : Prop :=
  (∃ col n, (col = "a.name".data ∨ col = "s.name".data ∨ col = "g.name".data ∨
      col = "b.language".data ∨ col = "b.format".data) ∧
    c = col ++ " IN (".data ++ createPlaceholders n ++ [')']) ∨
  c = "b.year >= ?".data ∨ c = "b.year <= ?".data

/-! ## Freshness-flag invariant (C7) -/

/-- The book ids of the `books` table, in row order. -/
def bookIds (s : DBState) : List Str := s.books.map (fun r => r.id)

/-- The book ids of the `books_fts` table, in row order. -/
def ftsIds (s : DBState) : List Str := s.booksFts.map (fun r => r.book_id)

/-- Exact 1:1 sync of the full-text index with the `books` table: the two
tables carry the same book ids, row for row. -/
def ftsSynced (s : DBState) : Prop := ftsIds s = bookIds s

/-- An `InsertBooks` batch with pairwise-distinct book ids (a `ClearAllBooks`
call imposes no condition). -/
def batchNodup : RepoOp → Prop
  | .clearAll => True
  | .insertBooks books => (books.map (fun b => b.ID)).Nodup

/-- A concrete record used to exercise the bulk import. -/
def cbook : InpxBook := { ID := "b1".data, Title := "t".data }

/-! # Theorems -/

theorem matchCI_length : ∀ (pat s r : Str), matchCI pat s = some r →
    s.length = pat.length + r.length := by
  intro pat
  induction pat with
  | nil => intro s r h; simp [matchCI] at h; simp [h]
  | cons p ps ih =>
    intro s r h
    cases s with
    | nil => simp [matchCI] at h
    | cons c cs =>
      simp only [matchCI] at h
      split at h
      · have := ih cs r h
        simp [this]; omega
      · exact absurd h (by simp)

theorem quotedRest_le : ∀ (s : Str) (n : Nat), quotedRest s = some n →
    n ≤ s.length := by
  intro s
  induction s using quotedRest.induct with
  | case1 => intro n h; simp [quotedRest] at h
  | case2 tail => intro n h; simp [quotedRest] at h; simp [← h]
  | case3 => intro n h; simp [quotedRest] at h
  | case4 rest2 => intro n h; simp [quotedRest] at h
  | case5 d rest2 hd ih =>
    intro n h
    simp only [quotedRest, if_neg hd, Option.map_eq_some'] at h
    obtain ⟨m, hm, rfl⟩ := h
    have := ih m hm
    simp; omega
  | case6 c rest h1 h2 ih =>
    intro n h
    simp only [quotedRest, Option.map_eq_some'] at h
    obtain ⟨m, hm, rfl⟩ := h
    have := ih m hm
    simp; omega

theorem runIf_bounds (s : Str) (n : Nat)
    (h : (if s.takeWhile (fun c => !regexIsSpace c) = [] then (none : Option Nat)
          else some (s.takeWhile (fun c => !regexIsSpace c)).length) = some n) :
    1 ≤ n ∧ n ≤ s.length := by
  split at h
  · exact absurd h (by simp)
  · rename_i hne
    obtain rfl : (s.takeWhile (fun c => !regexIsSpace c)).length = n := by
      simpa using h
    refine ⟨Nat.one_le_iff_ne_zero.mpr (by simpa using hne), ?_⟩
    exact (List.takeWhile_sublist _).length_le

theorem matchValue_bounds : ∀ (s : Str) (n : Nat), matchValue s = some n →
    1 ≤ n ∧ n ≤ s.length := by
  intro s n h
  simp only [matchValue] at h
  split at h
  · rename_i rest
    cases hq : quotedRest rest with
    | some m =>
      rw [hq] at h
      have hm := quotedRest_le rest m hq
      obtain rfl : m + 1 = n := by simpa using h
      refine ⟨by omega, by simp; omega⟩
    | none =>
      rw [hq] at h
      exact runIf_bounds _ n h
  · exact runIf_bounds s n h

theorem tryFieldAlts_bounds : ∀ (pats : List Str) (s : Str) (fl vl : Nat),
    tryFieldAlts pats s = some (fl, vl) → fl + 1 + vl ≤ s.length := by
  intro pats
  induction pats with
  | nil => intro s fl vl h; simp [tryFieldAlts] at h
  | cons pat pats ih =>
    intro s fl vl h
    simp only [tryFieldAlts] at h
    split at h
    · rename_i r2 hci
      split at h
      · rename_i v hv
        obtain ⟨rfl, rfl⟩ : pat.length = fl ∧ v = vl := by
          simpa using h
        have h1 := matchCI_length pat s (':' :: r2) hci
        have h2 := (matchValue_bounds r2 v hv).2
        simp at h1
        omega
      · exact ih s fl vl h
    · exact ih s fl vl h

theorem matchFieldAt_bounds (prev : Option Char) (s : Str) (fl vl : Nat)
    (h : matchFieldAt prev s = some (fl, vl)) : fl + 1 + vl ≤ s.length := by
  simp only [matchFieldAt] at h
  split at h
  · exact tryFieldAlts_bounds _ s fl vl h
  · exact absurd h (by simp)

theorem spansWF_mono : ∀ (ms : List (Nat × Nat × Nat)) (lo lo' len : Nat),
    spansWF lo' len ms → lo ≤ lo' → spansWF lo len ms := by
  intro ms
  induction ms with
  | nil => intro lo lo' len h hle; trivial
  | cons m ms ih =>
    intro lo lo' len h hle
    obtain ⟨st, fl, vl⟩ := m
    obtain ⟨h1, h2, h3⟩ := h
    exact ⟨Nat.le_trans hle h1, h2, h3⟩

theorem findMatchesAux_wf : ∀ (fuel : Nat) (prev : Option Char) (s : Str)
    (pos : Nat), spansWF pos (pos + s.length) (findMatchesAux fuel prev s pos) := by
  intro fuel
  induction fuel with
  | zero => intro prev s pos; trivial
  | succ n ih =>
    intro prev s pos
    cases s with
    | nil => trivial
    | cons c rest =>
      simp only [findMatchesAux]
      split
      · rename_i fl vl hm
        have hb := matchFieldAt_bounds prev (c :: rest) fl vl hm
        refine ⟨Nat.le_refl _,
          by simp only [List.length_cons] at hb ⊢; omega, ?_⟩
        have hlen : (List.drop (fl + 1 + vl) (c :: rest)).length =
            (c :: rest).length - (fl + 1 + vl) := by simp
        have := ih ((c :: rest).get? (fl + 1 + vl - 1))
          (List.drop (fl + 1 + vl) (c :: rest)) (pos + (fl + 1 + vl))
        rw [hlen] at this
        have heq : pos + (fl + 1 + vl) + ((c :: rest).length - (fl + 1 + vl)) =
            pos + (c :: rest).length := by
          simp only [List.length_cons] at hb ⊢; omega
        rw [heq] at this
        exact this
      · have := ih (some c) rest (pos + 1)
        have heq : pos + 1 + rest.length = pos + (c :: rest).length := by
          simp; omega
        rw [heq] at this
        exact spansWF_mono _ _ _ _ this (Nat.le_succ_of_le (Nat.le_refl pos))

theorem goIsSpace_not_token (c : Char) (h : goIsSpace c = true) :
    goIsLetter c = false ∧ goIsDigit c = false := by
  simp only [goIsSpace, Bool.or_eq_true, decide_eq_true_eq] at h
  rcases h with ((((((h | h) | h) | h) | h) | h) | h) | h <;> subst h <;> decide

theorem trimSpace_eq_nil_all_space (s : Str) (h : trimSpace s = []) :
    ∀ c ∈ s, goIsSpace c = true := by
  unfold trimSpace at h
  have h1 : ∀ c ∈ (s.dropWhile goIsSpace).reverse, goIsSpace c = true := by
    rw [← List.dropWhile_eq_nil_iff]
    simpa using congrArg List.reverse h
  intro c hc
  have : c ∈ s.takeWhile goIsSpace ∨ c ∈ s.dropWhile goIsSpace := by
    rw [← List.mem_append, List.takeWhile_append_dropWhile]
    exact hc
  rcases this with h2 | h2
  · exact List.mem_takeWhile_imp h2
  · exact h1 c (List.mem_reverse.mpr h2)

theorem tokenizeCore_all_sep (s : Str)
    (h : ∀ c ∈ s, goIsLetter c = false ∧ goIsDigit c = false) :
    tokenizeCore [] s = [] := by
  induction s with
  | nil => rfl
  | cons c rest ih =>
    have hc := h c (by simp)
    simp only [tokenizeCore, hc.1, hc.2, Bool.or_self, Bool.false_eq_true,
      if_false, if_pos rfl]
    exact ih (fun d hd => h d (by simp [hd]))

theorem tokenizeText_of_trim_nil (s : Str) (h : trimSpace s = []) :
    tokenizeText s = [] :=
  tokenizeCore_all_sep s fun c hc =>
    goIsSpace_not_token c (trimSpace_eq_nil_all_space s h c hc)

/-- C3: whenever the field-qualifier pattern matches nowhere in the raw
query, `parseSearchQuery` leaves every field-specific token list empty and
the general tokens are exactly `tokenizeText` of the raw query. -/
theorem c3_no_field_qualifier (input : Str)
    (h : findFieldMatches input = []) :
    (parseSearchQuery input).TitleTerms = [] ∧
    (parseSearchQuery input).AuthorTerms = [] ∧
    (parseSearchQuery input).SeriesTerms = [] ∧
    (parseSearchQuery input).AnnotTerms = [] ∧
    (parseSearchQuery input).GeneralTerms = tokenizeText input := by
  unfold parseSearchQuery
  by_cases ht : trimSpace input = []
  · simp only [ht, if_pos rfl]
    exact ⟨rfl, rfl, rfl, rfl, (tokenizeText_of_trim_nil input ht).symm⟩
  · simp only [ht, if_neg, h]
    exact ⟨rfl, rfl, rfl, rfl, rfl⟩

/-- Witness for C3 at the concrete query `war and peace`. -/
theorem c3_no_field_qualifier_witness :
    (parseSearchQuery "war and peace".data).AuthorTerms = [] ∧
    (parseSearchQuery "war and peace".data).GeneralTerms =
      tokenizeText "war and peace".data :=
  ⟨(c3_no_field_qualifier "war and peace".data (by decide)).2.1,
   (c3_no_field_qualifier "war and peace".data (by decide)).2.2.2.2⟩

/-- C9: the span list the scanner produces is always in-bounds, ordered and
non-overlapping (the formal content of "terminates without panicking": the
parser is a total function and its submatch-index slicing stays within the
input), and the malformed quoted value `author:"Unterminated` (no closing
quote) is treated as literal text — it becomes the author token
`unterminated` via the `\S+` fallback of the value group. -/
theorem c9_parser_safety :
    (∀ s : Str, spansWF 0 s.length (findFieldMatches s)) ∧
    parseSearchQuery "author:\"Unterminated".data =
      ⟨[], [], [], ["unterminated".data], [], []⟩ := by
  constructor
  · intro s
    have h := findMatchesAux_wf s.length none s 0
    simpa using h
  · decide

/-- C5: `buildOrderClause` maps the sort key per the spec table (`year` and
`date_added` to their columns, `relevance` to the rank function exactly
when a full-text clause is active and to the title column otherwise, any
unknown key to the title column), the direction defaults to ascending with
case-insensitive `desc` reversing it, and with no requested sort and an
active full-text clause the result orders by `bm25(books_fts)` ascending —
SQLite's `bm25` is lower-is-better, so this is relevance-descending
(best match first). -/
theorem c5_buildOrderClause :
    (∀ (sortBy sortOrder : Str) (hasFTS : Bool),
      buildOrderClause sortBy sortOrder hasFTS =
        " ORDER BY ".data ++ orderColumnSpec sortBy hasFTS ++ [' '] ++
          (if strToLower sortOrder = "desc".data then "DESC".data
           else "ASC".data)) ∧
    buildOrderClause [] [] true = " ORDER BY bm25(books_fts) ASC".data := by
  constructor
  · intro sortBy sortOrder hasFTS
    by_cases hsb : sortBy = []
    · subst hsb
      cases hasFTS <;> simp [buildOrderClause, orderColumnSpec]
    · cases hasFTS <;> simp [buildOrderClause, orderColumnSpec, hsb]
  · decide

/-- C10: `InsertBooks` with an empty record list returns nil at once,
leaving the entire repository and database state — tables, PRAGMA
settings and the full-text freshness flag — untouched. -/
theorem c10_insertBooks_empty (s : DBState) :
    insertBooksOp s [] = (Except.ok (), s) := by
  simp [insertBooksOp]

/-- Witness for C10 at the empty initial state. -/
theorem c10_insertBooks_empty_witness :
    insertBooksOp {} [] = (Except.ok (), ({} : DBState)) :=
  c10_insertBooks_empty {}

/-- C8 counterexample: with no matching rows (the page query returns no
rows and the count is 0) `SearchBooks` assembles its book list by
`append` onto Go's zero-value slice, which never runs — the returned
`Books` is the nil slice, not an allocated empty slice, refuting
"empty and not nil". -/
theorem c8_counterexample :
    (searchBooksModel ({} : BookFilter) ([] : List Unit) 0).Books =
      GoSlice.nil ∧
    GoSlice.nil ≠ GoSlice.mk ([] : List Unit) := by
  constructor
  · rfl
  · intro h
    exact GoSlice.noConfusion h

/-- C8 (amended): for a filter matching no rows, `SearchBooks` returns a
non-error `BookList` whose book list has length zero — Go's nil slice,
since no `append` executes — and whose total is the zero count. -/
theorem c8_empty_result {α : Type} (filter : BookFilter) :
    (searchBooksModel filter ([] : List α) 0).Books = GoSlice.nil ∧
    goLen (searchBooksModel filter ([] : List α) 0).Books = 0 ∧
    (searchBooksModel filter ([] : List α) 0).Total = 0 := by
  exact ⟨rfl, rfl, rfl⟩

theorem tokenizeCore_no_nil : ∀ (s cur : Str), [] ∉ tokenizeCore cur s := by
  intro s
  induction s with
  | nil =>
    intro cur
    by_cases h : cur = []
    · simp [tokenizeCore, h]
    · simp [tokenizeCore, h]
  | cons c rest ih =>
    intro cur
    simp only [tokenizeCore]
    split
    · exact ih _
    · by_cases h : cur = []
      · simp only [if_pos h]; exact ih _
      · simp only [if_neg h]
        intro hm
        rcases List.mem_cons.mp hm with h1 | h1
        · exact h h1.symm
        · exact ih [] h1

theorem tokenizeText_no_nil (s : Str) : [] ∉ tokenizeText s :=
  tokenizeCore_no_nil s []

theorem uniqueCore_eq_dedupFirstCore : ∀ (ts : List Str) (seen : List Str),
    [] ∉ ts → uniqueCore seen ts = dedupFirstCore seen ts := by
  intro ts
  induction ts with
  | nil => intro seen _; rfl
  | cons t ts ih =>
    intro seen h
    have ht : ¬ t = [] := fun he => h (by simp [he])
    have hts : [] ∉ ts := fun he => h (by simp [he])
    simp only [uniqueCore, dedupFirstCore, if_neg ht]
    by_cases hm : t ∈ seen
    · simp only [if_pos hm]; exact ih seen hts
    · simp only [if_neg hm]; rw [ih (t :: seen) hts]

theorem uniqueTokens_eq_dedupFirst (ts : List Str) (h : [] ∉ ts) :
    uniqueTokens ts = dedupFirst ts :=
  uniqueCore_eq_dedupFirstCore ts [] h

theorem uniqueCore_no_nil : ∀ (ts seen : List Str), [] ∉ uniqueCore seen ts := by
  intro ts
  induction ts with
  | nil => intro seen; simp [uniqueCore]
  | cons t ts ih =>
    intro seen
    by_cases he : t = []
    · simp only [uniqueCore, if_pos he]; exact ih seen
    · simp only [uniqueCore, if_neg he]
      by_cases hm : t ∈ seen
      · simp only [if_pos hm]; exact ih seen
      · simp only [if_neg hm]
        intro hmem
        rcases List.mem_cons.mp hmem with h1 | h1
        · exact he h1.symm
        · exact ih (t :: seen) h1

theorem formatFTSToken_eq_starred (t : Str) (ht : t ≠ []) :
    formatFTSToken t = starred t := by
  simp [formatFTSToken, starred, ht]

theorem generalClause_eq (t : Str) (ht : t ≠ []) :
    ['('] ++ joinSep " OR ".data (ftsSearchableColumns.map
      (fun column => column ++ [':'] ++ formatFTSToken t)) ++ [')'] =
    specGeneralClause t := by
  rw [formatFTSToken_eq_starred t ht]
  simp only [ftsSearchableColumns, List.map, joinSep, specGeneralClause,
    List.append_assoc, List.cons_append, List.nil_append]

theorem fieldClause_eq (field t : Str) (ht : t ≠ []) :
    field ++ [':'] ++ formatFTSToken t = field ++ [':'] ++ starred t := by
  rw [formatFTSToken_eq_starred t ht]

theorem buildGeneralFTSClause_eq (tokens : List Str) (h : [] ∉ tokens) :
    buildGeneralFTSClause tokens = specGeneralGroup tokens := by
  dsimp only [buildGeneralFTSClause, specGeneralGroup]
  rw [uniqueTokens_eq_dedupFirst tokens h]
  by_cases hnil : dedupFirst tokens = []
  · simp [hnil, joinSep]
  · rw [if_neg hnil]
    have hm : List.map (fun token =>
        ['('] ++ joinSep " OR ".data (ftsSearchableColumns.map
          (fun column => column ++ [':'] ++ formatFTSToken token)) ++ [')'])
        (dedupFirst tokens) =
        List.map specGeneralClause (dedupFirst tokens) := by
      apply List.map_congr_left
      intro t htm
      have ht : t ≠ [] := by
        intro he
        rw [← uniqueTokens_eq_dedupFirst tokens h] at htm
        exact uniqueCore_no_nil tokens [] (he ▸ htm)
      exact generalClause_eq t ht
    rw [hm]
    rcases hh : List.map specGeneralClause (dedupFirst tokens) with _ | ⟨x, _ | ⟨y, ys⟩⟩ <;> rfl

theorem buildFieldFTSClause_eq (field : Str) (tokens : List Str)
    (h : [] ∉ tokens) :
    buildFieldFTSClause field tokens = specFieldGroup field tokens := by
  dsimp only [buildFieldFTSClause, specFieldGroup]
  rw [uniqueTokens_eq_dedupFirst tokens h]
  by_cases hnil : dedupFirst tokens = []
  · simp [hnil, joinSep]
  · rw [if_neg hnil]
    have hm : List.map (fun token => field ++ [':'] ++ formatFTSToken token)
        (dedupFirst tokens) =
        List.map (fun t => field ++ [':'] ++ starred t) (dedupFirst tokens) := by
      apply List.map_congr_left
      intro t htm
      have ht : t ≠ [] := by
        intro he
        rw [← uniqueTokens_eq_dedupFirst tokens h] at htm
        exact uniqueCore_no_nil tokens [] (he ▸ htm)
      exact fieldClause_eq field t ht
    rw [hm]
    rcases hh : List.map (fun t => field ++ [':'] ++ starred t) (dedupFirst tokens)
      with _ | ⟨x, _ | ⟨y, ys⟩⟩ <;> rfl

theorem joinSep_cons_eq_nil (sep g : Str) (rest : List Str)
    (h : joinSep sep (g :: rest) = []) : g = [] := by
  match rest with
  | [] => exact h
  | r :: rs =>
    simp only [joinSep] at h
    rcases List.append_eq_nil.mp h with ⟨h1, _⟩
    rcases List.append_eq_nil.mp h1 with ⟨h2, _⟩
    exact h2

theorem buildFTSExpression_eq_spec (q : StructuredQuery)
    (hG : [] ∉ q.GeneralTerms) (hT : [] ∉ q.TitleTerms)
    (hA : [] ∉ q.AuthorTerms) (hS : [] ∉ q.SeriesTerms)
    (hN : [] ∉ q.AnnotTerms) :
    buildFTSExpression q = specFTSExpression q := by
  dsimp only [buildFTSExpression]
  rw [buildGeneralFTSClause_eq _ hG, buildFieldFTSClause_eq _ _ hT,
    buildFieldFTSClause_eq _ _ hA, buildFieldFTSClause_eq _ _ hS,
    buildFieldFTSClause_eq _ _ hN]
  unfold specFTSExpression specGroups
  generalize specGeneralGroup q.GeneralTerms = g1
  generalize specFieldGroup "title".data q.TitleTerms = g2
  generalize specFieldGroup "authors".data q.AuthorTerms = g3
  generalize specFieldGroup "series".data q.SeriesTerms = g4
  generalize specFieldGroup "annotation".data q.AnnotTerms = g5
  rcases g1 with _ | ⟨a1, r1⟩ <;> rcases g2 with _ | ⟨a2, r2⟩ <;>
    rcases g3 with _ | ⟨a3, r3⟩ <;> rcases g4 with _ | ⟨a4, r4⟩ <;>
    rcases g5 with _ | ⟨a5, r5⟩ <;> simp [joinSep]

theorem specFTS_empty_iff (q : StructuredQuery) :
    specFTSExpression q = [] ↔ ∀ g ∈ specGroups q, g = [] := by
  unfold specFTSExpression
  constructor
  · intro h g hg
    by_contra hne
    cases hf : (specGroups q).filter (· ≠ []) with
    | nil =>
      rw [List.filter_eq_nil_iff] at hf
      have hgf := hf g hg
      simp only [ne_eq, decide_not, Bool.not_eq_true', decide_eq_false_iff_not,
        Decidable.not_not] at hgf
      exact hne hgf
    | cons x rest =>
      rw [hf] at h
      have hxmem : x ∈ List.filter (fun g => decide (g ≠ [])) (specGroups q) := by
        rw [hf]; exact List.mem_cons_self x rest
      have hxne : x ≠ [] := by simpa using (List.mem_filter.mp hxmem).2
      exact hxne (joinSep_cons_eq_nil _ x rest h)
  · intro h
    have hf : (specGroups q).filter (· ≠ []) = [] := by
      rw [List.filter_eq_nil_iff]
      intro g hg
      simp [h g hg]
    rw [hf]
    rfl

theorem parseLoop_no_nil (input : Str) : ∀ (ms : List (Nat × Nat × Nat))
    (last : Nat) (rem : Str) (q : StructuredQuery),
    [] ∉ q.TitleTerms → [] ∉ q.AuthorTerms → [] ∉ q.SeriesTerms →
    [] ∉ q.AnnotTerms →
    [] ∉ (parseLoop input ms last rem q).2.TitleTerms ∧
    [] ∉ (parseLoop input ms last rem q).2.AuthorTerms ∧
    [] ∉ (parseLoop input ms last rem q).2.SeriesTerms ∧
    [] ∉ (parseLoop input ms last rem q).2.AnnotTerms := by
  intro ms
  induction ms with
  | nil => intro last rem q h1 h2 h3 h4; exact ⟨h1, h2, h3, h4⟩
  | cons m ms ih =>
    intro last rem q h1 h2 h3 h4
    obtain ⟨start, fl, vl⟩ := m
    dsimp only [parseLoop]
    split
    · exact ih _ _ _ h1 h2 h3 h4
    · have happ : ∀ (l : List Str) (v : Str), [] ∉ l →
          [] ∉ l ++ tokenizeText v := by
        intro l v hl hm
        rcases List.mem_append.mp hm with h | h
        · exact hl h
        · exact tokenizeText_no_nil v h
      split
      · exact ih _ _ _ (happ _ _ h1) h2 h3 h4
      · split
        · exact ih _ _ _ h1 (happ _ _ h2) h3 h4
        · split
          · exact ih _ _ _ h1 h2 (happ _ _ h3) h4
          · split
            · exact ih _ _ _ h1 h2 h3 (happ _ _ h4)
            · exact ih _ _ _ h1 h2 h3 h4

theorem parseSearchQuery_no_nil (input : Str) :
    [] ∉ (parseSearchQuery input).GeneralTerms ∧
    [] ∉ (parseSearchQuery input).TitleTerms ∧
    [] ∉ (parseSearchQuery input).AuthorTerms ∧
    [] ∉ (parseSearchQuery input).SeriesTerms ∧
    [] ∉ (parseSearchQuery input).AnnotTerms := by
  unfold parseSearchQuery
  by_cases ht : trimSpace input = []
  · simp [ht]
  · rw [if_neg ht]
    cases hm : findFieldMatches input with
    | nil =>
      refine ⟨tokenizeText_no_nil input, by simp, by simp, by simp, by simp⟩
    | cons m ms =>
      have hl := parseLoop_no_nil input (m :: ms) 0 [] ⟨[], [], [], [], [], []⟩
        (by simp) (by simp) (by simp) (by simp)
      exact ⟨tokenizeText_no_nil _, hl.1, hl.2.1, hl.2.2.1, hl.2.2.2⟩

/-- C1: for every parsed query, `buildFTSExpression` equals the
spec-described expression — per deduplicated (first-occurrence) general
token a `(title:T OR annotation:T OR authors:T OR series:T)` clause with
`T` the token star-suffixed unless it already ends in `*`, per-token
clauses AND-joined, field tokens as `field:T` AND-joined per field, the
non-empty groups (general, title, authors, series, annotation) AND-joined
— and the expression is empty exactly when every group is empty. -/
theorem c1_fts_expression (input : Str) :
    buildFTSExpression (parseSearchQuery input) =
      specFTSExpression (parseSearchQuery input) ∧
    (buildFTSExpression (parseSearchQuery input) = [] ↔
      ∀ g ∈ specGroups (parseSearchQuery input), g = []) := by
  obtain ⟨hG, hT, hA, hS, hN⟩ := parseSearchQuery_no_nil input
  have he := buildFTSExpression_eq_spec _ hG hT hA hS hN
  exact ⟨he, by rw [he]; exact specFTS_empty_iff _⟩

theorem inStep_joins (col : Str) (vals : List Str) (p : SearchPlan) :
    (inStep col vals p).joins = p.joins := by
  unfold inStep; split <;> rfl

theorem inStep_flags (col : Str) (vals : List Str) (p : SearchPlan) :
    (inStep col vals p).joinedAuthors = p.joinedAuthors ∧
    (inStep col vals p).hasFTS = p.hasFTS := by
  unfold inStep; split <;> exact ⟨rfl, rfl⟩

theorem inStep_conds (col : Str) (vals : List Str) (p : SearchPlan) :
    (inStep col vals p).conds = p.conds ∨
    (inStep col vals p).conds =
      p.conds ++ [col ++ " IN (".data ++ createPlaceholders vals.length ++ [')']] := by
  unfold inStep; split
  · right; rfl
  · left; rfl

theorem inStep_args (col : Str) (vals : List Str) (p : SearchPlan) :
    ∃ a, (inStep col vals p).baseArgs = p.baseArgs ++ a := by
  unfold inStep; split
  · exact ⟨_, rfl⟩
  · exact ⟨[], by simp⟩

theorem yearFromStep_args (f : BookFilter) (p : SearchPlan) :
    ∃ a, (yearFromStep f p).baseArgs = p.baseArgs ++ a := by
  unfold yearFromStep; split
  · exact ⟨_, rfl⟩
  · exact ⟨[], by simp⟩

theorem yearToStep_args (f : BookFilter) (p : SearchPlan) :
    ∃ a, (yearToStep f p).baseArgs = p.baseArgs ++ a := by
  unfold yearToStep; split
  · exact ⟨_, rfl⟩
  · exact ⟨[], by simp⟩

theorem yearFromStep_shape (f : BookFilter) (p : SearchPlan) :
    (yearFromStep f p).joins = p.joins ∧
    (yearFromStep f p).joinedAuthors = p.joinedAuthors ∧
    (yearFromStep f p).hasFTS = p.hasFTS ∧
    ((yearFromStep f p).conds = p.conds ∨
      (yearFromStep f p).conds = p.conds ++ ["b.year >= ?".data]) := by
  unfold yearFromStep; split
  · exact ⟨rfl, rfl, rfl, Or.inr rfl⟩
  · exact ⟨rfl, rfl, rfl, Or.inl rfl⟩

theorem yearToStep_shape (f : BookFilter) (p : SearchPlan) :
    (yearToStep f p).joins = p.joins ∧
    (yearToStep f p).joinedAuthors = p.joinedAuthors ∧
    (yearToStep f p).hasFTS = p.hasFTS ∧
    ((yearToStep f p).conds = p.conds ∨
      (yearToStep f p).conds = p.conds ++ ["b.year <= ?".data]) := by
  unfold yearToStep; split
  · exact ⟨rfl, rfl, rfl, Or.inr rfl⟩
  · exact ⟨rfl, rfl, rfl, Or.inl rfl⟩

theorem addAuthorJoin_shape (p : SearchPlan) :
    (((addAuthorJoin p).joins = p.joins ∧
        (addAuthorJoin p).joinedAuthors = p.joinedAuthors ∧
        p.joinedAuthors = true) ∨
      ((addAuthorJoin p).joins = p.joins ++ [baJoin, authorsJoin] ∧
        p.joinedAuthors = false ∧ (addAuthorJoin p).joinedAuthors = true)) ∧
    (addAuthorJoin p).conds = p.conds ∧
    (addAuthorJoin p).baseArgs = p.baseArgs ∧
    (addAuthorJoin p).hasFTS = p.hasFTS := by
  unfold addAuthorJoin; split
  · rename_i h; exact ⟨Or.inl ⟨rfl, rfl, h⟩, rfl, rfl, rfl⟩
  · rename_i h
    exact ⟨Or.inr ⟨rfl, by simpa using h, rfl⟩, rfl, rfl, rfl⟩

theorem authorsStep_shape (f : BookFilter) (p : SearchPlan) :
    (((authorsStep f p).joins = p.joins ∧
        (authorsStep f p).joinedAuthors = p.joinedAuthors) ∨
      ((authorsStep f p).joins = p.joins ++ [baJoin, authorsJoin] ∧
        p.joinedAuthors = false ∧ (authorsStep f p).joinedAuthors = true)) ∧
    ((authorsStep f p).conds = p.conds ∨
      (authorsStep f p).conds = p.conds ++
        ["a.name".data ++ " IN (".data ++
          createPlaceholders f.Authors.length ++ [')']]) ∧
    (authorsStep f p).hasFTS = p.hasFTS ∧
    (∃ a, (authorsStep f p).baseArgs = p.baseArgs ++ a) := by
  unfold authorsStep
  split
  · have ha := addAuthorJoin_shape p
    have hj := inStep_joins "a.name".data f.Authors (addAuthorJoin p)
    have hc := inStep_conds "a.name".data f.Authors (addAuthorJoin p)
    have hf := inStep_flags "a.name".data f.Authors (addAuthorJoin p)
    have harg := inStep_args "a.name".data f.Authors (addAuthorJoin p)
    refine ⟨?_, ?_, by rw [hf.2]; exact ha.2.2.2, ?_⟩
    · rcases ha.1 with ⟨h1, h2, h3⟩ | ⟨h1, h2, h3⟩
      · exact Or.inl ⟨by rw [hj, h1], by rw [hf.1, h2]⟩
      · exact Or.inr ⟨by rw [hj, h1], h2, by rw [hf.1, h3]⟩
    · rw [ha.2.1] at hc; exact hc
    · obtain ⟨a, haa⟩ := harg
      exact ⟨a, by rw [haa, ha.2.2.1]⟩
  · exact ⟨Or.inl ⟨rfl, rfl⟩, Or.inl rfl, rfl, ⟨[], by simp⟩⟩

/-- The conditions and flags of the full plan, relative to the state after
the free-text block: later blocks never touch the joins except for the
single author-join pair, never change `hasFTS`, only append
structurally-shaped conditions, and only append arguments. -/
theorem searchPlan_shape (f : BookFilter) :
    (((searchPlan f).joins = (queryStep f initialPlan).joins ∧
        (searchPlan f).joinedAuthors =
          (queryStep f initialPlan).joinedAuthors) ∨
      ((searchPlan f).joins =
          (queryStep f initialPlan).joins ++ [baJoin, authorsJoin] ∧
        (queryStep f initialPlan).joinedAuthors = false ∧
        (searchPlan f).joinedAuthors = true)) ∧
    (searchPlan f).hasFTS = (queryStep f initialPlan).hasFTS ∧
    (∃ later, (searchPlan f).conds = (queryStep f initialPlan).conds ++ later ∧
      ∀ c ∈ later, structuredCond c) ∧
    (∃ args, (searchPlan f).baseArgs =
      (queryStep f initialPlan).baseArgs ++ args) := by
  unfold searchPlan
  dsimp only
  generalize queryStep f initialPlan = p1
  have h2 := authorsStep_shape f p1
  generalize hp2 : authorsStep f p1 = p2 at h2
  have h3c := inStep_conds "s.name".data f.Series p2
  have h3j := inStep_joins "s.name".data f.Series p2
  have h3f := inStep_flags "s.name".data f.Series p2
  generalize hp3 : inStep "s.name".data f.Series p2 = p3 at h3c h3j h3f
  have h4c := inStep_conds "g.name".data f.Genres p3
  have h4j := inStep_joins "g.name".data f.Genres p3
  have h4f := inStep_flags "g.name".data f.Genres p3
  generalize hp4 : inStep "g.name".data f.Genres p3 = p4 at h4c h4j h4f
  have h5c := inStep_conds "b.language".data f.Languages p4
  have h5j := inStep_joins "b.language".data f.Languages p4
  have h5f := inStep_flags "b.language".data f.Languages p4
  generalize hp5 : inStep "b.language".data f.Languages p4 = p5 at h5c h5j h5f
  have h6c := inStep_conds "b.format".data f.Formats p5
  have h6j := inStep_joins "b.format".data f.Formats p5
  have h6f := inStep_flags "b.format".data f.Formats p5
  generalize hp6 : inStep "b.format".data f.Formats p5 = p6 at h6c h6j h6f
  have h7 := yearFromStep_shape f p6
  generalize hp7 : yearFromStep f p6 = p7 at h7
  have h8 := yearToStep_shape f p7
  generalize hp8 : yearToStep f p7 = p8 at h8
  refine ⟨?_, ?_, ?_, ?_⟩
  · rcases h2.1 with ⟨hj, hja⟩ | ⟨hj, hf0, hja⟩
    · exact Or.inl ⟨by rw [h8.1, h7.1, h6j, h5j, h4j, h3j, hj],
        by rw [h8.2.1, h7.2.1, h6f.1, h5f.1, h4f.1, h3f.1, hja]⟩
    · exact Or.inr ⟨by rw [h8.1, h7.1, h6j, h5j, h4j, h3j, hj], hf0,
        by rw [h8.2.1, h7.2.1, h6f.1, h5f.1, h4f.1, h3f.1, hja]⟩
  · rw [h8.2.2.1, h7.2.2.1, h6f.2, h5f.2, h4f.2, h3f.2]
    exact h2.2.2.1
  · have base : ∃ later, p2.conds = p1.conds ++ later ∧
        ∀ c ∈ later, structuredCond c := by
      rcases h2.2.1 with h | h
      · exact ⟨[], by simp [h], by simp⟩
      · refine ⟨_, h, ?_⟩
        intro c hc
        rw [List.mem_singleton] at hc
        exact Or.inl ⟨"a.name".data, f.Authors.length, Or.inl rfl, hc⟩
    have ext : ∀ (pa pb : SearchPlan) (cnd : Str),
        structuredCond cnd →
        (pb.conds = pa.conds ∨ pb.conds = pa.conds ++ [cnd]) →
        (∃ later, pa.conds = p1.conds ++ later ∧ ∀ c ∈ later, structuredCond c) →
        ∃ later, pb.conds = p1.conds ++ later ∧ ∀ c ∈ later, structuredCond c := by
      intro pa pb cnd hcnd hab ⟨later, hl, hls⟩
      rcases hab with h | h
      · exact ⟨later, by rw [h, hl], hls⟩
      · refine ⟨later ++ [cnd], by rw [h, hl, List.append_assoc], ?_⟩
        intro c hc
        rcases List.mem_append.mp hc with h | h
        · exact hls c h
        · rw [List.mem_singleton] at h
          exact h ▸ hcnd
    have s3 := ext p2 p3 _ (Or.inl ⟨"s.name".data, f.Series.length, by simp, rfl⟩)
      h3c base
    have s4 := ext p3 p4 _ (Or.inl ⟨"g.name".data, f.Genres.length, by simp, rfl⟩)
      h4c s3
    have s5 := ext p4 p5 _
      (Or.inl ⟨"b.language".data, f.Languages.length, by simp, rfl⟩) h5c s4
    have s6 := ext p5 p6 _
      (Or.inl ⟨"b.format".data, f.Formats.length, by simp, rfl⟩) h6c s5
    have s7 := ext p6 p7 _ (Or.inr (Or.inl rfl)) h7.2.2.2 s6
    exact ext p7 p8 _ (Or.inr (Or.inr rfl)) h8.2.2.2 s7
  · have comp : ∀ (pa pb : SearchPlan),
        (∃ a, pb.baseArgs = pa.baseArgs ++ a) →
        (∃ a, pa.baseArgs = p1.baseArgs ++ a) →
        ∃ a, pb.baseArgs = p1.baseArgs ++ a := by
      intro pa pb ⟨a1, ha1⟩ ⟨a2, ha2⟩
      exact ⟨a2 ++ a1, by rw [ha1, ha2, List.append_assoc]⟩
    have a3 := inStep_args "s.name".data f.Series p2
    rw [hp3] at a3
    have a4 := inStep_args "g.name".data f.Genres p3
    rw [hp4] at a4
    have a5 := inStep_args "b.language".data f.Languages p4
    rw [hp5] at a5
    have a6 := inStep_args "b.format".data f.Formats p5
    rw [hp6] at a6
    have a7 := yearFromStep_args f p6
    rw [hp7] at a7
    have a8 := yearToStep_args f p7
    rw [hp8] at a8
    exact comp p7 p8 a8 (comp p6 p7 a7 (comp p5 p6 a6 (comp p4 p5 a5
      (comp p3 p4 a4 (comp p2 p3 a3 h2.2.2.2)))))

theorem createPlaceholders_chars (n : Nat) (c : Char)
    (h : c ∈ createPlaceholders n) : c = '?' ∨ c = ',' := by
  unfold createPlaceholders at h
  split at h
  · simp at h
  · rw [List.mem_reverse] at h
    have h2 := (List.dropWhile_sublist _).subset h
    rw [List.mem_reverse] at h2
    obtain ⟨l, hl, hc⟩ := List.mem_flatten.mp h2
    rw [List.mem_replicate] at hl
    rw [hl.2] at hc
    have hc2 : c ∈ ['?', ','] := hc
    simpa using hc2

/-- None of the structured-filter conditions contains `M`, `W` or `G`
(the capitals of `MATCH`, `LOWER`/`WHERE` and `GROUP BY`). -/
theorem structuredCond_chars (c : Str) (h : structuredCond c) :
    'M' ∉ c ∧ 'W' ∉ c ∧ 'G' ∉ c := by
  have base : ∀ d : Char, d = 'M' ∨ d = 'W' ∨ d = 'G' → d ∉ c := by
    intro d hd
    rcases h with ⟨col, n, hcol, rfl⟩ | h | h
    · intro hmem
      rcases List.mem_append.mp hmem with h1 | h1
      · rcases List.mem_append.mp h1 with h2 | h2
        · rcases List.mem_append.mp h2 with h3 | h3
          · rcases hcol with h5 | h5 | h5 | h5 | h5 <;> rw [h5] at h3 <;>
              rcases hd with rfl | rfl | rfl <;> revert h3 <;> decide
          · rcases hd with rfl | rfl | rfl <;> revert h3 <;> decide
        · rcases createPlaceholders_chars n _ h2 with h4 | h4 <;>
            rcases hd with rfl | rfl | rfl <;> simp at h4
      · rcases hd with rfl | rfl | rfl <;> revert h1 <;> decide
    · rw [h]
      rcases hd with rfl | rfl | rfl <;> decide
    · rw [h]
      rcases hd with rfl | rfl | rfl <;> decide
  exact ⟨base 'M' (Or.inl rfl), base 'W' (Or.inr (Or.inl rfl)),
    base 'G' (Or.inr (Or.inr rfl))⟩

/-- The free-text block when the full-text expression is non-empty. -/
theorem queryStep_fts (f : BookFilter) (hq : trimSpace f.Query ≠ [])
    (hfts : (prepareFTSSearch f.Query).1 ≠ []) :
    queryStep f initialPlan =
      ⟨[seriesJoin, genresJoin, ftsJoin], ["books_fts MATCH ?".data],
       [SQLArg.s (prepareFTSSearch f.Query).1], false, true⟩ := by
  have hp : prepareFTSSearch f.Query =
      ((prepareFTSSearch f.Query).1, (prepareFTSSearch f.Query).2) := rfl
  unfold queryStep
  rw [if_pos hq, hp]
  dsimp only
  rw [if_pos hfts]
  rfl

/-- The free-text block when the expression is empty but the fallback is
non-empty: the LIKE condition with the author join forced. -/
theorem queryStep_fallback (f : BookFilter) (hq : trimSpace f.Query ≠ [])
    (hfts : (prepareFTSSearch f.Query).1 = [])
    (hfb : (prepareFTSSearch f.Query).2 ≠ []) :
    queryStep f initialPlan =
      ⟨[seriesJoin, genresJoin, baJoin, authorsJoin], [likeCond],
       (fun a => [a, a, a, a])
         (SQLArg.s (['%'] ++ strToLower (prepareFTSSearch f.Query).2 ++ ['%'])),
       true, false⟩ := by
  have hp : prepareFTSSearch f.Query =
      ((prepareFTSSearch f.Query).1, (prepareFTSSearch f.Query).2) := rfl
  unfold queryStep
  rw [if_pos hq, hp]
  dsimp only
  rw [if_neg (by simp [hfts]), if_pos hfb]
  rfl

/-- The fallback string computed by `prepareFTSSearch` is the one the spec
describes. -/
theorem prepareFTSSearch_fallback_eq (input : Str) :
    (prepareFTSSearch input).2 = specFallback input := by
  unfold prepareFTSSearch specFallback
  dsimp only
  rw [uniqueTokens_eq_dedupFirst _ (parseSearchQuery_no_nil input).1]
  by_cases hn : normalizeWhitespace (parseSearchQuery input).Remainder = []
  · by_cases hg : (parseSearchQuery input).GeneralTerms = []
    · simp [hn, hg]
    · simp [hn, hg]
  · simp [hn]

/-- C4: for a non-blank free-text query, the fallback string is the
spec-described one (whitespace-normalized remainder, else deduplicated
general tokens space-joined); when the full-text expression is empty and
the fallback non-empty the builder adds the lowercased `%fallback%` LIKE
condition across title/annotation/author/series and forces the author
join pair (and no full-text condition or join appears); when the
expression is non-empty the builder uses the `books_fts MATCH ?`
condition with the inner full-text join and the LIKE fallback is not
used. -/
theorem c4_fallback_logic (f : BookFilter) (hq : trimSpace f.Query ≠ []) :
    (prepareFTSSearch f.Query).2 = specFallback f.Query ∧
    ((prepareFTSSearch f.Query).1 = [] → (prepareFTSSearch f.Query).2 ≠ [] →
      (searchPlan f).joinedAuthors = true ∧
      baJoin ∈ (searchPlan f).joins ∧ authorsJoin ∈ (searchPlan f).joins ∧
      likeCond ∈ (searchPlan f).conds ∧
      SQLArg.s (['%'] ++ strToLower (prepareFTSSearch f.Query).2 ++ ['%']) ∈
        (searchPlan f).baseArgs ∧
      (searchPlan f).hasFTS = false ∧
      "books_fts MATCH ?".data ∉ (searchPlan f).conds ∧
      ftsJoin ∉ (searchPlan f).joins) ∧
    ((prepareFTSSearch f.Query).1 ≠ [] →
      (searchPlan f).hasFTS = true ∧
      "books_fts MATCH ?".data ∈ (searchPlan f).conds ∧
      ftsJoin ∈ (searchPlan f).joins ∧
      SQLArg.s (prepareFTSSearch f.Query).1 ∈ (searchPlan f).baseArgs ∧
      likeCond ∉ (searchPlan f).conds) := by
  obtain ⟨hjoins, hfts, ⟨later, hconds, hlater⟩, ⟨args, hargs⟩⟩ :=
    searchPlan_shape f
  refine ⟨prepareFTSSearch_fallback_eq f.Query, ?_, ?_⟩
  · intro h1 h2
    rw [queryStep_fallback f hq h1 h2] at hjoins hfts hconds hargs
    refine ⟨?_, ?_, ?_, ?_, ?_, hfts, ?_, ?_⟩
    · rcases hjoins with ⟨_, hja⟩ | ⟨_, _, hja⟩ <;> exact hja
    · rcases hjoins with ⟨h, _⟩ | ⟨h, _, _⟩ <;> rw [h] <;> simp
    · rcases hjoins with ⟨h, _⟩ | ⟨h, _, _⟩ <;> rw [h] <;> simp
    · rw [hconds]; simp
    · rw [hargs]; simp
    · rw [hconds]
      intro hmem
      rcases List.mem_append.mp hmem with h | h
      · have h' : "books_fts MATCH ?".data = likeCond := by simpa using h
        exact absurd h' (by decide)
      · exact (structuredCond_chars _ (hlater _ h)).1 (by decide)
    · rcases hjoins with ⟨h, _⟩ | ⟨h, _, _⟩ <;> rw [h] <;> dsimp only <;> decide
  · intro h1
    rw [queryStep_fts f hq h1] at hjoins hfts hconds hargs
    refine ⟨hfts, ?_, ?_, ?_, ?_⟩
    · rw [hconds]; simp
    · rcases hjoins with ⟨h, _⟩ | ⟨h, _, _⟩ <;> rw [h] <;> simp
    · rw [hargs]; simp
    · rw [hconds]
      intro hmem
      rcases List.mem_append.mp hmem with h | h
      · have h' : likeCond = "books_fts MATCH ?".data := by simpa using h
        exact absurd h' (by decide)
      · exact (structuredCond_chars _ (hlater _ h)).2.1 (by decide)

/-- Witness for C4 at the concrete queries `!!! ???` (fallback path) and
`hello` (full-text path). -/
theorem c4_fallback_logic_witness :
    likeCond ∈ (searchPlan { Query := "!!! ???".data }).conds ∧
    "books_fts MATCH ?".data ∈ (searchPlan { Query := "hello".data }).conds :=
  ⟨((c4_fallback_logic { Query := "!!! ???".data } (by decide)).2.1
      (by decide) (by decide)).2.2.2.1,
   ((c4_fallback_logic { Query := "hello".data } (by decide)).2.2
      (by decide)).2.1⟩

/-- The four possible outcomes of the free-text block. -/
theorem queryStep_cases (f : BookFilter) :
    queryStep f initialPlan = initialPlan ∨
    (∃ a, queryStep f initialPlan =
      ⟨[seriesJoin, genresJoin, ftsJoin], ["books_fts MATCH ?".data],
       [SQLArg.s a], false, true⟩) ∨
    (∃ a, queryStep f initialPlan =
      ⟨[seriesJoin, genresJoin, baJoin, authorsJoin], [likeCond],
       [SQLArg.s a, SQLArg.s a, SQLArg.s a, SQLArg.s a], true, false⟩) := by
  unfold queryStep
  split
  · have hp : prepareFTSSearch f.Query =
        ((prepareFTSSearch f.Query).1, (prepareFTSSearch f.Query).2) := rfl
    rw [hp]
    dsimp only
    split
    · right; left; exact ⟨_, rfl⟩
    · split
      · right; right; exact ⟨_, rfl⟩
      · left; rfl
  · left; rfl

theorem mem_joinSep : ∀ (l : List Str) (sep : Str) (c : Char),
    c ∈ joinSep sep l → c ∈ sep ∨ ∃ x ∈ l, c ∈ x := by
  intro l
  induction l with
  | nil => intro sep c h; simp [joinSep] at h
  | cons x xs ih =>
    intro sep c h
    cases xs with
    | nil =>
      right
      exact ⟨x, by simp, h⟩
    | cons y r =>
      have he : joinSep sep (x :: y :: r) = x ++ sep ++ joinSep sep (y :: r) := rfl
      rw [he] at h
      rcases List.mem_append.mp h with h1 | h1
      · rcases List.mem_append.mp h1 with h2 | h2
        · exact Or.inr ⟨x, by simp, h2⟩
        · exact Or.inl h2
      · rcases ih sep c h1 with h2 | ⟨z, hz, hc⟩
        · exact Or.inl h2
        · exact Or.inr ⟨z, by simp [hz], hc⟩

theorem joinSep_last : ∀ (l : List Str) (sep : Str), l ≠ [] →
    ∃ Y lc, joinSep sep l = Y ++ lc ∧ lc ∈ l := by
  intro l
  induction l with
  | nil => intro sep h; exact absurd rfl h
  | cons x xs ih =>
    intro sep _
    cases xs with
    | nil => exact ⟨[], x, by simp [joinSep], by simp⟩
    | cons y r =>
      obtain ⟨Y, lc, hj, hm⟩ := ih sep (by simp)
      refine ⟨x ++ sep ++ Y, lc, ?_, by simp [hm]⟩
      have he : joinSep sep (x :: y :: r) = x ++ sep ++ joinSep sep (y :: r) := rfl
      rw [he, hj]
      simp [List.append_assoc]

theorem orderClause_noG (sb so : Str) (h : Bool) :
    'G' ∉ buildOrderClause sb so h := by
  dsimp only [buildOrderClause]
  split_ifs <;> intro hm <;>
    rcases List.mem_append.mp hm with h1 | h1 <;>
    first
    | (rcases List.mem_append.mp h1 with h2 | h2
       · rcases List.mem_append.mp h2 with h3 | h3 <;> revert h3 <;> decide
       · revert h2; decide)
    | (revert h1; decide)

/-- Every condition of the final plan contains no `M`-free… every final
condition is the MATCH condition, the LIKE condition, or a structured
condition; in particular none contains `G`, and each contains `.` or is
one of the two known free-text conditions. -/
theorem searchPlan_conds_cases (f : BookFilter) :
    ∀ c ∈ (searchPlan f).conds,
      c = "books_fts MATCH ?".data ∨ c = likeCond ∨ structuredCond c := by
  obtain ⟨_, _, ⟨later, hconds, hlater⟩, _⟩ := searchPlan_shape f
  intro c hc
  rw [hconds] at hc
  rcases List.mem_append.mp hc with h | h
  · rcases queryStep_cases f with hq | ⟨a, hq⟩ | ⟨a, hq⟩ <;> rw [hq] at h
    · simp [initialPlan] at h
    · left; simpa using h
    · right; left; simpa using h
  · exact Or.inr (Or.inr (hlater c h))

theorem structuredCond_dot (c : Str) (h : structuredCond c) : '.' ∈ c := by
  rcases h with ⟨col, n, hcol, rfl⟩ | h | h
  · refine List.mem_append.mpr (Or.inl (List.mem_append.mpr (Or.inl
      (List.mem_append.mpr (Or.inl ?_)))))
    rcases hcol with h5 | h5 | h5 | h5 | h5 <;> rw [h5] <;> decide
  · rw [h]; decide
  · rw [h]; decide

/-- The final join list is one of four concrete lists, and contains the
author-join pair exactly when `joinedAuthors` is set. -/
theorem searchPlan_joins_ja (f : BookFilter) :
    (((searchPlan f).joins = [seriesJoin, genresJoin] ∨
      (searchPlan f).joins = [seriesJoin, genresJoin, ftsJoin]) ∧
      (searchPlan f).joinedAuthors = false) ∨
    (((searchPlan f).joins = [seriesJoin, genresJoin, baJoin, authorsJoin] ∨
      (searchPlan f).joins =
        [seriesJoin, genresJoin, ftsJoin, baJoin, authorsJoin]) ∧
      (searchPlan f).joinedAuthors = true) := by
  obtain ⟨hjoins, _, _, _⟩ := searchPlan_shape f
  rcases queryStep_cases f with hq | ⟨a, hq⟩ | ⟨a, hq⟩ <;> rw [hq] at hjoins
  · rcases hjoins with ⟨hj, hja⟩ | ⟨hj, _, hja⟩
    · exact Or.inl ⟨Or.inl hj, hja⟩
    · exact Or.inr ⟨Or.inl hj, hja⟩
  · rcases hjoins with ⟨hj, hja⟩ | ⟨hj, _, hja⟩
    · exact Or.inl ⟨Or.inr hj, hja⟩
    · exact Or.inr ⟨Or.inr hj, hja⟩
  · rcases hjoins with ⟨hj, hja⟩ | ⟨hj, hf0, hja⟩
    · exact Or.inr ⟨Or.inl hj, hja⟩
    · simp at hf0

theorem renderWhere_chars (f : BookFilter) (c : Char)
    (h : c ∈ renderWhere (searchPlan f).conds) :
    c ∈ " WHERE ".data ∨ c ∈ " AND ".data ∨
    ∃ x ∈ (searchPlan f).conds, c ∈ x := by
  unfold renderWhere at h
  split at h
  · simp at h
  · rcases List.mem_append.mp h with h1 | h1
    · exact Or.inl h1
    · rcases mem_joinSep _ _ _ h1 with h2 | ⟨x, hx, hc⟩
      · exact Or.inr (Or.inl h2)
      · exact Or.inr (Or.inr ⟨x, hx, hc⟩)

theorem searchPlan_cond_noG (f : BookFilter) (c : Str)
    (h : c ∈ (searchPlan f).conds) : 'G' ∉ c := by
  rcases searchPlan_conds_cases f c h with h1 | h1 | h1
  · rw [h1]; decide
  · rw [h1]; decide
  · exact (structuredCond_chars c h1).2.2

theorem count_noG (f : BookFilter) : 'G' ∉ (buildSearchSQL f).2.2.1 := by
  have he : (buildSearchSQL f).2.2.1 =
      "SELECT COUNT(DISTINCT b.id) FROM books b".data ++
      renderJoins (searchPlan f).joins ++ renderWhere (searchPlan f).conds := rfl
  rw [he]
  intro hm
  rcases List.mem_append.mp hm with h1 | h1
  · rcases List.mem_append.mp h1 with h2 | h2
    · revert h2; decide
    · rcases searchPlan_joins_ja f with ⟨hj | hj, _⟩ | ⟨hj | hj, _⟩ <;>
        rw [hj] at h2 <;> revert h2 <;> decide
  · rcases renderWhere_chars f 'G' h1 with h2 | h2 | h2
    · revert h2; decide
    · revert h2; decide
    · obtain ⟨x, hx, hc⟩ := h2
      exact searchPlan_cond_noG f x hx hc

theorem page_noG (f : BookFilter)
    (hja : (searchPlan f).joinedAuthors = false) :
    'G' ∉ (buildSearchSQL f).1 := by
  have he : (buildSearchSQL f).1 =
      "SELECT ".data ++ bookSelectColumns ++ " FROM books b".data ++
      renderJoins (searchPlan f).joins ++ renderWhere (searchPlan f).conds ++
      (if (searchPlan f).joinedAuthors then " GROUP BY b.id".data else []) ++
      buildOrderClause f.SortBy f.SortOrder (searchPlan f).hasFTS ++
      " LIMIT ? OFFSET ?".data := rfl
  rw [he, hja]
  intro hm
  rcases List.mem_append.mp hm with h1 | h1
  swap
  · revert h1; decide
  rcases List.mem_append.mp h1 with h2 | h2
  swap
  · exact orderClause_noG _ _ _ h2
  rcases List.mem_append.mp h2 with h3 | h3
  swap
  · simp at h3
  rcases List.mem_append.mp h3 with h4 | h4
  swap
  · rcases renderWhere_chars f 'G' h4 with h5 | h5 | h5
    · revert h5; decide
    · revert h5; decide
    · obtain ⟨x, hx, hc⟩ := h5
      exact searchPlan_cond_noG f x hx hc
  rcases List.mem_append.mp h4 with h5 | h5
  swap
  · rcases searchPlan_joins_ja f with ⟨hj | hj, _⟩ | ⟨hj | hj, _⟩ <;>
      rw [hj] at h5 <;> revert h5 <;> decide
  rcases List.mem_append.mp h5 with h6 | h6
  swap
  · revert h6; decide
  rcases List.mem_append.mp h6 with h7 | h7
  · revert h7; decide
  · revert h7; decide

theorem count_not_limit_suffix (f : BookFilter) :
    ¬ (" LIMIT ? OFFSET ?".data <:+ (buildSearchSQL f).2.2.1) := by
  have he : (buildSearchSQL f).2.2.1 =
      "SELECT COUNT(DISTINCT b.id) FROM books b".data ++
      renderJoins (searchPlan f).joins ++ renderWhere (searchPlan f).conds := rfl
  intro hsuf
  rw [he] at hsuf
  by_cases hc : (searchPlan f).conds = []
  · rw [hc] at hsuf
    rcases searchPlan_joins_ja f with ⟨hj | hj, _⟩ | ⟨hj | hj, _⟩ <;>
      rw [hj] at hsuf <;> revert hsuf <;> decide
  · obtain ⟨Y, lc, hjl, hm⟩ := joinSep_last (searchPlan f).conds " AND ".data hc
    have hrw : renderWhere (searchPlan f).conds = " WHERE ".data ++ (Y ++ lc) := by
      unfold renderWhere
      rw [if_neg hc, hjl]
    rw [hrw] at hsuf
    have hlcsuf : lc <:+
        "SELECT COUNT(DISTINCT b.id) FROM books b".data ++
        renderJoins (searchPlan f).joins ++ (" WHERE ".data ++ (Y ++ lc)) := by
      have hassoc : "SELECT COUNT(DISTINCT b.id) FROM books b".data ++
          renderJoins (searchPlan f).joins ++ (" WHERE ".data ++ (Y ++ lc)) =
          ("SELECT COUNT(DISTINCT b.id) FROM books b".data ++
            renderJoins (searchPlan f).joins ++ (" WHERE ".data ++ Y)) ++ lc := by
        simp [List.append_assoc]
      rw [hassoc]
      exact List.suffix_append _ _
    rcases List.suffix_or_suffix_of_suffix hsuf hlcsuf with h | h
    · rcases searchPlan_conds_cases f lc hm with h1 | h1 | h1
      · rw [h1] at h; revert h; decide
      · rw [h1] at h; revert h; decide
      · exact (structuredCond_chars lc h1).1
          (h.subset (show 'M' ∈ " LIMIT ? OFFSET ?".data by decide))
    · rcases searchPlan_conds_cases f lc hm with h1 | h1 | h1
      · rw [h1] at h; revert h; decide
      · rw [h1] at h; revert h; decide
      · have hdot := h.subset (structuredCond_dot lc h1)
        revert hdot; decide

/-- C2: the page query and the count query of `buildSearchSQL` render the
same join list, the same AND-combined condition list and the same base
arguments; the page arguments append exactly the sanitized limit and
offset; the author-join pair occurs at most once; the page query contains
`GROUP BY b.id` exactly when the author join was added, while the count
query uses `COUNT(DISTINCT b.id)` and never contains `GROUP BY`; and
`LIMIT ? OFFSET ?` is appended to the page query only. -/
theorem c2_buildSearchSQL (f : BookFilter) :
    (buildSearchSQL f).1 =
      "SELECT ".data ++ bookSelectColumns ++ " FROM books b".data ++
      renderJoins (searchPlan f).joins ++ renderWhere (searchPlan f).conds ++
      (if (searchPlan f).joinedAuthors then " GROUP BY b.id".data else []) ++
      buildOrderClause f.SortBy f.SortOrder (searchPlan f).hasFTS ++
      " LIMIT ? OFFSET ?".data ∧
    (buildSearchSQL f).2.2.1 =
      "SELECT COUNT(DISTINCT b.id) FROM books b".data ++
      renderJoins (searchPlan f).joins ++ renderWhere (searchPlan f).conds ∧
    (buildSearchSQL f).2.1 = (searchPlan f).baseArgs ++
      [SQLArg.i (if f.Limit ≤ 0 then 30 else f.Limit),
       SQLArg.i (if f.Offset < 0 then 0 else f.Offset)] ∧
    (buildSearchSQL f).2.2.2 = (searchPlan f).baseArgs ∧
    List.countP (fun j => decide (j = baJoin)) (searchPlan f).joins ≤ 1 ∧
    (" GROUP BY b.id".data <:+: (buildSearchSQL f).1 ↔
      (searchPlan f).joinedAuthors = true) ∧
    ¬ ("GROUP BY".data <:+: (buildSearchSQL f).2.2.1) ∧
    " LIMIT ? OFFSET ?".data <:+ (buildSearchSQL f).1 ∧
    ¬ (" LIMIT ? OFFSET ?".data <:+ (buildSearchSQL f).2.2.1) := by
  refine ⟨rfl, rfl, rfl, rfl, ?_, ?_, ?_, ?_, count_not_limit_suffix f⟩
  · rcases searchPlan_joins_ja f with ⟨hj | hj, _⟩ | ⟨hj | hj, _⟩ <;>
      rw [hj] <;> decide
  · constructor
    · intro hinf
      rcases Bool.eq_false_or_eq_true (searchPlan f).joinedAuthors with h | h
      · exact h
      · exact absurd
          (hinf.subset (show 'G' ∈ " GROUP BY b.id".data by decide))
          (page_noG f h)
    · intro hja
      refine ⟨"SELECT ".data ++ bookSelectColumns ++ " FROM books b".data ++
        renderJoins (searchPlan f).joins ++ renderWhere (searchPlan f).conds,
        buildOrderClause f.SortBy f.SortOrder (searchPlan f).hasFTS ++
          " LIMIT ? OFFSET ?".data, ?_⟩
      have he : (buildSearchSQL f).1 =
          "SELECT ".data ++ bookSelectColumns ++ " FROM books b".data ++
          renderJoins (searchPlan f).joins ++ renderWhere (searchPlan f).conds ++
          (if (searchPlan f).joinedAuthors then " GROUP BY b.id".data else []) ++
          buildOrderClause f.SortBy f.SortOrder (searchPlan f).hasFTS ++
          " LIMIT ? OFFSET ?".data := rfl
      rw [he, hja]
      simp [List.append_assoc]
  · intro hinf
    exact absurd (hinf.subset (show 'G' ∈ "GROUP BY".data by decide))
      (count_noG f)
  · have he : (buildSearchSQL f).1 =
        ("SELECT ".data ++ bookSelectColumns ++ " FROM books b".data ++
        renderJoins (searchPlan f).joins ++ renderWhere (searchPlan f).conds ++
        (if (searchPlan f).joinedAuthors then " GROUP BY b.id".data else []) ++
        buildOrderClause f.SortBy f.SortOrder (searchPlan f).hasFTS) ++
        " LIMIT ? OFFSET ?".data := rfl
    rw [he]
    exact List.suffix_append _ _

/-- `getOrCreateNameTx` on a name absent from table and cache: the insert
succeeds and yields the next id. -/
theorem getOrCreateNameTx_fresh (t : NameTable) (n : Str)
    (hfree : t.rows.any (fun r => r.2 = n) = false) :
    getOrCreateNameTx t [] n =
      .ok (t.nextId, ⟨t.rows ++ [(t.nextId, n)], t.nextId + 1⟩, [(n, t.nextId)]) := by
  unfold getOrCreateNameTx sqlInsertName
  simp [hfree]

/-- `getOrCreateNameTx` on a cached name: served from the cache, no table
access. -/
theorem getOrCreateNameTx_hit (t : NameTable) (c : List (Str × Nat)) (n : Str)
    (id : Nat) :
    getOrCreateNameTx t ((n, id) :: c) n = .ok (id, t, (n, id) :: c) := by
  unfold getOrCreateNameTx
  simp [List.find?]

/-- `getOrCreateNameTx` when the name is already in the table but not the
cache: the insert raises a uniqueness-constraint error, which is caught
and resolved by the lookup — the call still succeeds and the table is
unchanged. -/
theorem getOrCreateNameTx_race (t : NameTable) (c : List (Str × Nat)) (n : Str)
    (hin : t.rows.any (fun r => r.2 = n) = true)
    (hc : c.find? (fun e => e.1 = n) = none) :
    ∃ id, getOrCreateNameTx t c n = .ok (id, t, (n, id) :: c) ∧
      sqlSelectIdByName t n = some id := by
  obtain ⟨r, hr, hrn⟩ := List.any_eq_true.mp hin
  have hsome : (t.rows.find? (fun r => r.2 = n)).isSome :=
    List.find?_isSome.mpr ⟨r, hr, hrn⟩
  obtain ⟨r', hr'⟩ := Option.isSome_iff_exists.mp hsome
  refine ⟨r'.1, ?_, ?_⟩
  · unfold getOrCreateNameTx sqlInsertName
    rw [hc]
    simp [hin, isUniqueConstraintError, sqlSelectIdByName, hr']
  · simp [sqlSelectIdByName, hr']

/-- `getOrCreateNameTx` never fails. -/
theorem getOrCreateNameTx_ok (t : NameTable) (c : List (Str × Nat)) (n : Str) :
    ∃ id t' c', getOrCreateNameTx t c n = .ok (id, t', c') := by
  unfold getOrCreateNameTx
  cases hc : c.find? (fun e => e.1 = n) with
  | some e => exact ⟨e.2, t, c, rfl⟩
  | none =>
    unfold sqlInsertName
    by_cases hany : t.rows.any (fun r => r.2 = n)
    · obtain ⟨r, hr, hrn⟩ := List.any_eq_true.mp hany
      have hsome : (t.rows.find? (fun r => r.2 = n)).isSome :=
        List.find?_isSome.mpr ⟨r, hr, hrn⟩
      obtain ⟨r', hr'⟩ := Option.isSome_iff_exists.mp hsome
      refine ⟨r'.1, t, (n, r'.1) :: c, ?_⟩
      simp [hany, isUniqueConstraintError, sqlSelectIdByName, hr']
    · refine ⟨t.nextId, ⟨t.rows ++ [(t.nextId, n)], t.nextId + 1⟩,
        (n, t.nextId) :: c, ?_⟩
      simp [hany]


/-- Running `insertBookTx` on a record whose author list is the single
non-empty name `n`: the call succeeds, the final authors table and author
cache are those produced by one `getOrCreateNameTx` call on `n`, and the
record is linked to the id that call returned. -/
theorem insertBookTx_run (s : DBState) (caches : Caches) (skip : Bool)
    (b : InpxBook) (n : Str) (hb : b.Authors = [n]) (hn : n ≠ []) :
    ∃ (s' : DBState) (caches' : Caches) (id : Nat) (authors' : NameTable)
      (ac' : List (Str × Nat)),
      insertBookTx s caches skip b = .ok (s', caches') ∧
      getOrCreateNameTx s.authors caches.authorCache n = .ok (id, authors', ac') ∧
      s'.authors = authors' ∧ caches'.authorCache = ac' ∧
      s'.bookAuthors = linkBookAuthor s.bookAuthors b.ID id := by
  obtain ⟨id, authors', ac', hg⟩ :=
    getOrCreateNameTx_ok s.authors caches.authorCache n
  unfold insertBookTx
  dsimp only
  by_cases hs : b.Series = []
  · by_cases hgen : b.Genre = []
    · simp [hs, hgen, hb, hn, hg, insertAuthorsLoop]
      refine ⟨_, _, ⟨rfl, rfl⟩, ?_⟩
      refine ⟨id, authors', ac', ⟨rfl, rfl, rfl⟩, ?_, rfl, ?_⟩
      · split <;> rfl
      · split <;> rfl
    · obtain ⟨gid, gt', gc', hgg⟩ :=
        getOrCreateNameTx_ok s.genres caches.genreCache b.Genre
      simp [hs, hgen, hb, hn, hg, hgg, insertAuthorsLoop]
      refine ⟨_, _, ⟨rfl, rfl⟩, ?_⟩
      refine ⟨id, authors', ac', ⟨rfl, rfl, rfl⟩, ?_, rfl, ?_⟩
      · split <;> rfl
      · split <;> rfl
  · obtain ⟨sid, st', sc', hgs⟩ :=
      getOrCreateNameTx_ok s.series caches.seriesCache b.Series
    by_cases hgen : b.Genre = []
    · simp [hs, hgen, hb, hn, hg, hgs, insertAuthorsLoop]
      refine ⟨_, _, ⟨rfl, rfl⟩, ?_⟩
      refine ⟨id, authors', ac', ⟨rfl, rfl, rfl⟩, ?_, rfl, ?_⟩
      · split <;> rfl
      · split <;> rfl
    · obtain ⟨gid, gt', gc', hgg⟩ :=
        getOrCreateNameTx_ok s.genres caches.genreCache b.Genre
      simp [hs, hgen, hb, hn, hg, hgs, hgg, insertAuthorsLoop]
      refine ⟨_, _, ⟨rfl, rfl⟩, ?_⟩
      refine ⟨id, authors', ac', ⟨rfl, rfl, rfl⟩, ?_, rfl, ?_⟩
      · split <;> rfl
      · split <;> rfl

theorem linkBookAuthor_mem_self (l : List (Str × Nat)) (b : Str) (id : Nat) :
    (b, id) ∈ linkBookAuthor l b id := by
  unfold linkBookAuthor
  split
  · assumption
  · simp

theorem linkBookAuthor_mono (l : List (Str × Nat)) (b : Str) (id : Nat)
    (x : Str × Nat) (h : x ∈ l) : x ∈ linkBookAuthor l b id := by
  unfold linkBookAuthor
  split
  · exact h
  · exact List.mem_append.mpr (Or.inl h)

/-- C6: inserting two records that share a previously-unseen author name
within one `InsertBooks` batch raises no uniqueness error and creates no
duplicate author rows; both records link to the same author id (the first
resolution inserts, the second is served by the per-call cache).
Moreover `getOrCreateNameTx` attempts the insert first and, on a
uniqueness-constraint violation, falls back to the lookup by name instead
of failing, and a cached name is answered from the cache without touching
the table. -/
theorem c6_author_race (s : DBState) (b1 b2 : InpxBook) (n : Str)
    (hn : n ≠ [])
    (hfree : s.authors.rows.any (fun r => r.2 = n) = false)
    (h1 : b1.Authors = [n]) (h2 : b2.Authors = [n]) :
    ((insertBooksOp s [b1, b2]).1 = .ok () ∧
      (((insertBooksOp s [b1, b2]).2.authors.rows.filter
        (fun r => r.2 = n)).length = 1) ∧
      (b1.ID, s.authors.nextId) ∈ (insertBooksOp s [b1, b2]).2.bookAuthors ∧
      (b2.ID, s.authors.nextId) ∈ (insertBooksOp s [b1, b2]).2.bookAuthors) ∧
    (∀ (t : NameTable) (c : List (Str × Nat)),
      t.rows.any (fun r => r.2 = n) = true →
      c.find? (fun e => e.1 = n) = none →
      ∃ id, getOrCreateNameTx t c n = .ok (id, t, (n, id) :: c) ∧
        sqlSelectIdByName t n = some id) ∧
    (∀ (t : NameTable) (c : List (Str × Nat)) (id : Nat),
      getOrCreateNameTx t ((n, id) :: c) n = .ok (id, t, (n, id) :: c)) := by
  refine ⟨?_, fun t c ht hc => getOrCreateNameTx_race t c n ht hc,
    fun t c id => getOrCreateNameTx_hit t c n id⟩
  obtain ⟨s₁, caches₁, id₁, authors₁, ac₁, htx1, hg1, ha1, hc1, hba1⟩ :=
    insertBookTx_run { s with ftsFresh := false } {} s.ftsFresh b1 n h1 hn
  have hfresh := getOrCreateNameTx_fresh s.authors n hfree
  rw [show ({ s with ftsFresh := false } : DBState).authors = s.authors from rfl,
    show ({} : Caches).authorCache = [] from rfl, hfresh] at hg1
  simp only [Except.ok.injEq, Prod.mk.injEq] at hg1
  obtain ⟨hid1, hau1, hac1⟩ := hg1
  subst hid1
  subst hau1
  subst hac1
  obtain ⟨s₂, caches₂, id₂, authors₂, ac₂, htx2, hg2, ha2, hc2, hba2⟩ :=
    insertBookTx_run s₁ caches₁ s.ftsFresh b2 n h2 hn
  rw [hc1, getOrCreateNameTx_hit s₁.authors [] n s.authors.nextId] at hg2
  simp only [Except.ok.injEq, Prod.mk.injEq] at hg2
  obtain ⟨hid2, hau2, hac2⟩ := hg2
  subst hid2
  subst hau2
  subst hac2
  have hloop : insertBooksOp s [b1, b2] = (.ok (), s₂) := by
    unfold insertBooksOp
    rw [if_neg (by simp)]
    dsimp only
    unfold insertBooksLoop
    rw [htx1]
    dsimp only
    unfold insertBooksLoop
    rw [htx2]
    rfl
  rw [hloop]
  dsimp only
  refine ⟨rfl, ?_, ?_, ?_⟩
  · rw [ha2, ha1]
    dsimp only
    rw [List.filter_append]
    have hnil : s.authors.rows.filter (fun r => decide (r.2 = n)) = [] := by
      rw [List.filter_eq_nil_iff]
      intro r hr
      have := List.any_eq_false.mp hfree r hr
      simpa using this
    rw [hnil]
    simp
  · rw [hba2]
    apply linkBookAuthor_mono
    rw [hba1]
    exact linkBookAuthor_mem_self _ b1.ID s.authors.nextId
  · rw [hba2]
    exact linkBookAuthor_mem_self _ b2.ID s.authors.nextId

/-- Witness for C6 at a concrete fresh state and two one-author records. -/
theorem c6_author_race_witness :
    ((insertBooksOp {} [{ ID := "b1".data, Authors := ["x".data] },
        { ID := "b2".data, Authors := ["x".data] }]).2.authors.rows.filter
      (fun r => r.2 = "x".data)).length = 1 :=
  (c6_author_race {} { ID := "b1".data, Authors := ["x".data] }
    { ID := "b2".data, Authors := ["x".data] } "x".data
    (by decide) (by decide) rfl rfl).1.2.1

/-! ## C7: the full-text freshness flag -/

theorem ftsIds_filter (l : List FTSRow) (x : Str) :
    (l.filter (fun r => r.book_id ≠ x)).map (fun r => r.book_id) =
      (l.map (fun r => r.book_id)).filter (fun i => i ≠ x) := by
  induction l with
  | nil => rfl
  | cons a l ih =>
    simp only [ne_eq, decide_not] at ih ⊢
    by_cases h : a.book_id = x <;> simp [List.filter_cons, h, ih]

theorem bookIds_filter (l : List BookRow) (x : Str) :
    (l.filter (fun r => r.id ≠ x)).map (fun r => r.id) =
      (l.map (fun r => r.id)).filter (fun i => i ≠ x) := by
  induction l with
  | nil => rfl
  | cons a l ih =>
    simp only [ne_eq, decide_not] at ih ⊢
    by_cases h : a.id = x <;> simp [List.filter_cons, h, ih]

theorem insertAuthorsLoop_frame (bookId : Str) (names : List Str) :
    ∀ (s : DBState) (caches : Caches) (s' : DBState) (caches' : Caches),
      insertAuthorsLoop bookId names s caches = .ok (s', caches') →
      s'.books = s.books ∧ s'.booksFts = s.booksFts ∧ s'.ftsFresh = s.ftsFresh := by
  induction names with
  | nil =>
    intro s caches s' caches' h
    simp only [insertAuthorsLoop, Except.ok.injEq, Prod.mk.injEq] at h
    rw [← h.1]
    exact ⟨rfl, rfl, rfl⟩
  | cons name names ih =>
    intro s caches s' caches' h
    unfold insertAuthorsLoop at h
    split at h
    · exact ih s caches s' caches' h
    · split at h
      · exact absurd h (by simp)
      · dsimp only at h
        have h3 := ih _ _ _ _ h
        exact h3

theorem insertBookTx_ids (s : DBState) (caches : Caches) (skip : Bool)
    (book : InpxBook) (s' : DBState) (caches' : Caches)
    (h : insertBookTx s caches skip book = .ok (s', caches')) :
    s'.ftsFresh = s.ftsFresh ∧
    bookIds s' = (bookIds s).filter (fun i => i ≠ book.ID) ++ [book.ID] ∧
    ftsIds s' = (if skip then ftsIds s
      else (ftsIds s).filter (fun i => i ≠ book.ID)) ++ [book.ID] := by
  unfold insertBookTx at h
  dsimp only at h
  split at h
  · exact absurd h (by simp)
  rename_i seriesId s1 caches1 heq1
  have hf1 : s1.books = s.books ∧ s1.booksFts = s.booksFts ∧
      s1.ftsFresh = s.ftsFresh := by
    split at heq1
    · simp only [Except.ok.injEq, Prod.mk.injEq] at heq1
      rw [← heq1.2.1]
      exact ⟨rfl, rfl, rfl⟩
    · split at heq1
      · exact absurd heq1 (by simp)
      · simp only [Except.ok.injEq, Prod.mk.injEq] at heq1
        rw [← heq1.2.1]
        exact ⟨rfl, rfl, rfl⟩
  split at h
  · exact absurd h (by simp)
  rename_i genreId s2 caches2 heq2
  have hf2 : s2.books = s1.books ∧ s2.booksFts = s1.booksFts ∧
      s2.ftsFresh = s1.ftsFresh := by
    split at heq2
    · simp only [Except.ok.injEq, Prod.mk.injEq] at heq2
      rw [← heq2.2.1]
      exact ⟨rfl, rfl, rfl⟩
    · split at heq2
      · exact absurd heq2 (by simp)
      · simp only [Except.ok.injEq, Prod.mk.injEq] at heq2
        rw [← heq2.2.1]
        exact ⟨rfl, rfl, rfl⟩
  split at h
  · exact absurd h (by simp)
  rename_i s4 caches4 heq4
  obtain ⟨hb4, hfts4, hff4⟩ := insertAuthorsLoop_frame _ _ _ _ _ _ heq4
  dsimp only at hb4 hfts4 hff4
  simp only [Except.ok.injEq, Prod.mk.injEq] at h
  rw [← h.1]
  cases skip with
  | false =>
    refine ⟨?_, ?_, ?_⟩
    · dsimp only
      rw [if_pos (show (!false) = true from rfl)]
      dsimp only
      rw [hff4, hf2.2.2, hf1.2.2]
    · dsimp only [bookIds]
      rw [if_pos (show (!false) = true from rfl)]
      dsimp only
      rw [hb4]
      show (upsertBook s2.books _).map (fun r => r.id) = _
      unfold upsertBook
      rw [List.map_append, bookIds_filter, hf2.1, hf1.1]
      rfl
    · dsimp only [ftsIds]
      rw [if_pos (show (!false) = true from rfl),
        if_neg (show ¬(false = true) from by decide)]
      dsimp only
      rw [List.map_append, ftsIds_filter, hfts4, hf2.2.1, hf1.2.1]
      rfl
  | true =>
    refine ⟨?_, ?_, ?_⟩
    · dsimp only
      rw [if_neg (show ¬((!true) = true) from by decide)]
      rw [hff4, hf2.2.2, hf1.2.2]
    · dsimp only [bookIds]
      rw [if_neg (show ¬((!true) = true) from by decide)]
      rw [hb4]
      show (upsertBook s2.books _).map (fun r => r.id) = _
      unfold upsertBook
      rw [List.map_append, bookIds_filter, hf2.1, hf1.1]
      rfl
    · dsimp only [ftsIds]
      rw [if_neg (show ¬((!true) = true) from by decide),
        if_pos (show true = true from rfl)]
      rw [List.map_append, hfts4, hf2.2.1, hf1.2.1]
      rfl

theorem insertBooksLoop_fresh (skip : Bool) (books : List InpxBook) :
    ∀ (s : DBState) (caches : Caches) (s' : DBState),
      insertBooksLoop skip books s caches = .ok s' → s'.ftsFresh = s.ftsFresh := by
  induction books with
  | nil =>
    intro s caches s' h
    simp only [insertBooksLoop, Except.ok.injEq] at h
    rw [← h]
  | cons b books ih =>
    intro s caches s' h
    unfold insertBooksLoop at h
    split at h
    · exact absurd h (by simp)
    · rename_i s1 caches1 heq
      rw [ih _ _ _ h, (insertBookTx_ids _ _ _ _ _ _ heq).1]

theorem insertBooksLoop_sync (skip : Bool) (books : List InpxBook) :
    ∀ (s : DBState) (caches : Caches) (s' : DBState),
      insertBooksLoop skip books s caches = .ok s' →
      ftsSynced s →
      (skip = true → (∀ b ∈ books, b.ID ∉ bookIds s) ∧
        (books.map (fun b => b.ID)).Nodup) →
      ftsSynced s' := by
  induction books with
  | nil =>
    intro s caches s' h hs _
    simp only [insertBooksLoop, Except.ok.injEq] at h
    rw [← h]
    exact hs
  | cons b books ih =>
    intro s caches s' h hs hskip
    unfold insertBooksLoop at h
    split at h
    · exact absurd h (by simp)
    · rename_i s1 caches1 heq
      obtain ⟨_, hbids, hfids⟩ := insertBookTx_ids _ _ _ _ _ _ heq
      cases skip with
      | false =>
        refine ih _ _ _ h ?_ (fun hc => absurd hc (by decide))
        unfold ftsSynced at hs ⊢
        rw [hbids, hfids, if_neg (show ¬(false = true) from by decide), hs]
      | true =>
        obtain ⟨hnotin, hnodup⟩ := hskip rfl
        simp only [List.map_cons] at hnodup
        obtain ⟨hhead, htail⟩ := List.nodup_cons.mp hnodup
        have hbid : b.ID ∉ bookIds s := hnotin b (by simp)
        have hfilter : (bookIds s).filter (fun i => i ≠ b.ID) = bookIds s := by
          rw [List.filter_eq_self]
          intro a ha
          simp only [ne_eq, decide_eq_true_eq]
          intro hcontra
          exact hbid (hcontra ▸ ha)
        refine ih _ _ _ h ?_ ?_
        · unfold ftsSynced at hs ⊢
          rw [hbids, hfids, if_pos rfl, hs, hfilter]
        · intro _
          refine ⟨?_, htail⟩
          intro b' hb' hmem
          rw [hbids, hfilter] at hmem
          rcases List.mem_append.mp hmem with hmem | hmem
          · exact hnotin b' (List.mem_cons_of_mem _ hb') hmem
          · have hbb : b'.ID = b.ID := by simpa using hmem
            exact hhead (hbb ▸ List.mem_map_of_mem (fun x => x.ID) hb')

theorem insertBooksOp_inv (s : DBState) (books : List InpxBook)
    (hflag : s.ftsFresh = true → s.books = [] ∧ s.booksFts = [])
    (hsync : ftsSynced s) (hnodup : (books.map (fun b => b.ID)).Nodup) :
    (((insertBooksOp s books).2).ftsFresh = true →
        ((insertBooksOp s books).2).books = [] ∧
        ((insertBooksOp s books).2).booksFts = []) ∧
    ftsSynced (insertBooksOp s books).2 := by
  unfold insertBooksOp
  by_cases hb : books = []
  · rw [if_pos hb]
    exact ⟨hflag, hsync⟩
  · rw [if_neg hb]
    dsimp only
    cases hloop : insertBooksLoop s.ftsFresh books { s with ftsFresh := false } {} with
    | error e =>
      dsimp only
      exact ⟨fun ht => absurd ht (by simp), hsync⟩
    | ok s1 =>
      dsimp only
      have hf1 : s1.ftsFresh = false := insertBooksLoop_fresh _ _ _ _ _ hloop
      have hsync1 : ftsSynced s1 := by
        refine insertBooksLoop_sync _ _ _ _ _ hloop hsync ?_
        intro hskip
        obtain ⟨hbe, _⟩ := hflag hskip
        refine ⟨?_, hnodup⟩
        intro b _
        show b.ID ∉ bookIds { s with ftsFresh := false }
        unfold bookIds
        dsimp only
        rw [hbe]
        simp
      refine ⟨fun ht => absurd ht ?_, hsync1⟩
      rw [hf1]
      decide

theorem repoStep_inv (s : DBState) (op : RepoOp)
    (hflag : s.ftsFresh = true → s.books = [] ∧ s.booksFts = [])
    (hsync : ftsSynced s) (hop : batchNodup op) :
    ((repoStep s op).ftsFresh = true →
        (repoStep s op).books = [] ∧ (repoStep s op).booksFts = []) ∧
    ftsSynced (repoStep s op) := by
  cases op with
  | clearAll => exact ⟨fun _ => ⟨rfl, rfl⟩, rfl⟩
  | insertBooks books => exact insertBooksOp_inv s books hflag hsync hop

theorem repoRun_inv (ops : List RepoOp) :
    ∀ s : DBState,
      (s.ftsFresh = true → s.books = [] ∧ s.booksFts = []) →
      ftsSynced s →
      (∀ op ∈ ops, batchNodup op) →
      ((repoRun s ops).ftsFresh = true →
          (repoRun s ops).books = [] ∧ (repoRun s ops).booksFts = []) ∧
      ftsSynced (repoRun s ops) := by
  induction ops with
  | nil =>
    intro s hflag hsync _
    exact ⟨hflag, hsync⟩
  | cons op ops ih =>
    intro s hflag hsync hops
    obtain ⟨h1, h2⟩ := repoStep_inv s op hflag hsync (hops op (by simp))
    exact ih (repoStep s op) h1 h2 (fun o ho => hops o (by simp [ho]))

/-- C7: the freshness flag is set (with both tables emptied) by `ClearAllBooks`
and by nothing else — any step leaving the flag set is either a `ClearAllBooks`
or an empty-batch `InsertBooks` that did not consume an already-set flag; a
non-empty `InsertBooks` runs its loop with `skipFTSDelete` equal to the
pre-call flag and unconditionally resets the flag (also when the transaction
rolls back on an error); in every reachable state with the flag set the
full-text table (and the books table) is empty, so the skipped per-book
`DELETE` is sound; and — for runs whose batches carry pairwise-distinct book
ids — the full-text index stays in exact 1:1 sync with the books table. -/
theorem c7_fts_freshness (ops : List RepoOp)
    (hops : ∀ op ∈ ops, batchNodup op) :
    (∀ s : DBState, (clearAllBooksOp s).ftsFresh = true ∧
        (clearAllBooksOp s).booksFts = [] ∧ (clearAllBooksOp s).books = []) ∧
    (∀ (s : DBState) (op : RepoOp), (repoStep s op).ftsFresh = true →
        op = RepoOp.clearAll ∨
          (s.ftsFresh = true ∧ op = RepoOp.insertBooks [])) ∧
    (∀ (s : DBState) (books : List InpxBook) (s1 : DBState), books ≠ [] →
        insertBooksLoop s.ftsFresh books { s with ftsFresh := false } {} =
          .ok s1 →
        insertBooksOp s books = (Except.ok (), s1)) ∧
    (∀ (s : DBState) (books : List InpxBook) (e : SqlErr), books ≠ [] →
        insertBooksLoop s.ftsFresh books { s with ftsFresh := false } {} =
          .error e →
        insertBooksOp s books = (Except.error e, { s with ftsFresh := false })) ∧
    (∀ (s : DBState) (books : List InpxBook), books ≠ [] →
        ((insertBooksOp s books).2).ftsFresh = false) ∧
    ((repoRun {} ops).ftsFresh = true → (repoRun {} ops).booksFts = []) ∧
    ftsSynced (repoRun {} ops) := by
  have hconsume : ∀ (s : DBState) (books : List InpxBook), books ≠ [] →
      ((insertBooksOp s books).2).ftsFresh = false := by
    intro s books hb
    unfold insertBooksOp
    rw [if_neg hb]
    dsimp only
    cases hloop : insertBooksLoop s.ftsFresh books { s with ftsFresh := false } {} with
    | error e => rfl
    | ok s1 => exact insertBooksLoop_fresh _ _ _ _ _ hloop
  obtain ⟨hflag, hsync⟩ := repoRun_inv ops {} (fun _ => ⟨rfl, rfl⟩) rfl hops
  refine ⟨fun s => ⟨rfl, rfl, rfl⟩, ?_, ?_, ?_, hconsume, fun ht => (hflag ht).2,
    hsync⟩
  · intro s op ht
    cases op with
    | clearAll => exact Or.inl rfl
    | insertBooks books =>
      by_cases hb : books = []
      · subst hb
        refine Or.inr ⟨?_, rfl⟩
        simpa [repoStep, insertBooksOp] using ht
      · rw [show repoStep s (RepoOp.insertBooks books) = (insertBooksOp s books).2
          from rfl, hconsume s books hb] at ht
        exact absurd ht (by decide)
  · intro s books s1 hb hloop
    unfold insertBooksOp
    rw [if_neg hb]
    dsimp only
    rw [hloop]
  · intro s books e hb hloop
    unfold insertBooksOp
    rw [if_neg hb]
    dsimp only
    rw [hloop]

theorem c7_fts_freshness_witness :
    (∀ op ∈ [RepoOp.clearAll, RepoOp.insertBooks [cbook]], batchNodup op) ∧
    ftsSynced (repoRun {} [RepoOp.clearAll, RepoOp.insertBooks [cbook]]) := by
  have hops : ∀ op ∈ [RepoOp.clearAll, RepoOp.insertBooks [cbook]],
      batchNodup op := by
    intro op hop
    simp only [List.mem_cons, List.not_mem_nil, or_false] at hop
    rcases hop with rfl | rfl
    · exact trivial
    · exact List.nodup_singleton _
  exact ⟨hops, (c7_fts_freshness _ hops).2.2.2.2.2.2⟩

/-- C7 counterexample: a batch holding the same book id twice, run directly
after `ClearAllBooks` (so the per-book full-text `DELETE` is skipped),
leaves two full-text rows against a single books row — the claimed
unconditional exact 1:1 sync fails. -/
theorem c7_sync_counterexample :
    (repoRun {} [RepoOp.clearAll, RepoOp.insertBooks [cbook, cbook]]).books.length
        = 1 ∧
    (repoRun {} [RepoOp.clearAll,
        RepoOp.insertBooks [cbook, cbook]]).booksFts.length = 2 ∧
    ¬ ftsSynced (repoRun {} [RepoOp.clearAll, RepoOp.insertBooks [cbook, cbook]]) := by
  refine ⟨rfl, rfl, ?_⟩
  unfold ftsSynced
  decide


end Pushkinlib
